import Mathlib

/-!
Shallow embedding of the aggregation pipelines of the two dashboard scripts
(`rs2_dr_dashboard.py` and `scan_records_dashboard.py`).

A CSV column is a list of cells; a cell is `Option String` where `none` is the
pandas missing value (`NaN` after `pd.read_csv`).  Parsed timestamps are
`Option Int` (seconds since the epoch, `none` = `NaT`); numeric columns after
`pd.to_numeric(..., errors="coerce")` are `Option ℚ` (or `Option Int` for
integer-valued columns).  Counters and `value_counts` are association lists
`List (α × Nat)` whose key order mirrors the pandas/Python iteration order.
Python whitespace handling is modelled with `Char.isWhitespace` (the ASCII
core of Python's `str.strip`).
-/

namespace Dash

/-- A CSV cell after `pd.read_csv`: `none` is pandas `NaN`. -/
abbrev Cell := Option String

/-- `astype(str)`: pandas renders a missing value as the string `"nan"`. -/
def pyStr : Cell → String
  | none => "nan"
  | some s => s

/-- Strip leading and trailing whitespace from a character list
(Python `str.strip()` on the underlying characters). -/
def stripChars (l : List Char) : List Char :=
  ((l.dropWhile Char.isWhitespace).reverse.dropWhile Char.isWhitespace).reverse

/-- `str.strip()` / pandas `.str.strip()`. -/
def strip (s : String) : String := String.mk (stripChars s.toList)

/-- `str.upper()` / pandas `.str.upper()`. -/
def upper (s : String) : String := String.mk (s.toList.map Char.toUpper)

/-- Whether a character is an ASCII uppercase letter `A`–`Z`. -/
def isUpperAZ (c : Char) : Bool := 'A' ≤ c && c ≤ 'Z'

/-- `Series.str.fullmatch(r"[A-Z]{2}")`: exactly two uppercase letters. -/
def isStateCode (s : String) : Bool :=
  match s.toList with
  | [c₁, c₂] => isUpperAZ c₁ && isUpperAZ c₂
  | _ => false

/-- State normalization, `rs2_dr_dashboard.py` lines 29–30 and
`scan_records_dashboard.py` lines 25–26:
`astype(str).str.strip().str.upper()`, then any value that does not fully
match `[A-Z]{2}` is set to null. -/
def normalizeState (c : Cell) : Cell :=
  let t := upper (strip (pyStr c))
  if isStateCode t then some t else none

/-- `Series.dropna` on a column of cells. -/
def dropna (l : List Cell) : List String := l.filterMap id

/-- One counter update: increment the first entry for `k`, or append `(k, 1)`
(a `collections.Counter` / hash-table bucket update). -/
def bump [DecidableEq α] : List (α × Nat) → α → List (α × Nat)
  | [], k => [(k, 1)]
  | (k₀, n) :: t, k => if k₀ = k then (k₀, n + 1) :: t else (k₀, n) :: bump t k

/-- Frequency table of a list of values, keys in first-encounter order
(`collections.Counter`, and the unsorted hash-table core of
`Series.value_counts` / `groupby(...).size()`). -/
def countsOf [DecidableEq α] (v : List α) : List (α × Nat) := v.foldl bump []

/-- First-occurrence deduplication (pandas `Series.unique`,
`DataFrame.drop_duplicates`). -/
def dedupFirst [DecidableEq α] (l : List α) : List α :=
  l.foldl (fun acc x => if x ∈ acc then acc else acc ++ [x]) []

/-- Insert `p` into a descending-by-measure list, before the first entry whose
measure is at most `f p`: the stable descending insertion step. -/
def insDesc (f : α → Nat) (p : α) : List α → List α
  | [] => [p]
  | q :: t => if f q ≤ f p then p :: q :: t else q :: insDesc f p t

/-- Stable sort, descending by the measure `f` (ties keep list order). -/
def sortDescBy (f : α → Nat) (l : List α) : List α := l.foldr (insDesc f) []

/-- `Series.value_counts()` / `Counter.most_common()`: counts sorted
descending, ties in first-encounter order (pandas sorts `value_counts`
with a stable sort; `Counter.most_common` preserves insertion order). -/
def valueCounts [DecidableEq α] (v : List α) : List (α × Nat) :=
  sortDescBy Prod.snd (countsOf v)

/-- `Counter.most_common(n)`. -/
def mostCommon (n : Nat) (c : List (α × Nat)) : List (α × Nat) :=
  (sortDescBy Prod.snd c).take n

/-- Byte-wise lexicographic comparison of character lists: the string order
used for sorted `groupby` keys. -/
def leChars : List Char → List Char → Bool
  | [], _ => true
  | _ :: _, [] => false
  | c :: s, d :: t =>
    if c.toNat < d.toNat then true
    else if d.toNat < c.toNat then false
    else leChars s t

/-- Lexicographic `≤` on strings. -/
def strLe (a b : String) : Bool := leChars a.toList b.toList

/-- Insert `p` into a list that ascends under `le`. -/
def insAsc (le : α → α → Bool) (p : α) : List α → List α
  | [] => [p]
  | q :: t => if le p q then p :: q :: t else q :: insAsc le p t

/-- Sort ascending under `le` (stable; `groupby` keys are distinct). -/
def sortAscBy (le : α → α → Bool) (l : List α) : List α :=
  l.foldr (insAsc le) []

/-- `groupby(col).size()`: per-key counts, keys in ascending key order. -/
def groupbySize (v : List String) : List (String × Nat) :=
  sortAscBy (fun p q => strLe p.1 q.1) (countsOf v)

/-- Total count recorded for key `k` in a counts table (label lookup, as in
`Series.reindex`; counts tables have unique keys). -/
def countVal [DecidableEq α] (l : List (α × Nat)) (k : α) : Nat :=
  ((l.filter (fun p => p.1 = k)).map Prod.snd).sum

/-- `resample` helper: `n` contiguous buckets starting at `b`, each with its
event count. -/
def resampleFrom (cnt : Int → Nat) : Int → Nat → List (Int × Nat)
  | _, 0 => []
  | b, n + 1 => (b, cnt b) :: resampleFrom cnt (b + 1) n

/-- `set_index(ts).resample(freq).size()`: contiguous buckets from the minimum
to the maximum occupied bucket, counting events per bucket (`NaT` rows are
dropped by `resample`; gap buckets get count 0). -/
def bucketSeries (buckets : List Int) : List (Int × Nat) :=
  match buckets with
  | [] => []
  | b :: bs =>
    resampleFrom (fun x => (b :: bs).count x) (bs.foldl min b)
      ((bs.foldl max b - bs.foldl min b + 1).toNat)

/-- `safe_mean` (`rs2_dr_dashboard.py` lines 88–90): mean of the non-null
values, or `0.0` when there are none. -/
def safe_mean (l : List ℚ) : ℚ := if l = [] then 0 else l.sum / (l.length : ℚ)

/-- Split a character list at every `';'` (Python `str.split(";")` with its
single-character separator: `""` gives `[""]`, adjacent separators give
empty pieces). -/
def splitSemiChars : List Char → List (List Char)
  | [] => [[]]
  | c :: t =>
    if c = ';' then [] :: splitSemiChars t
    else
      match splitSemiChars t with
      | [] => [[c]]
      | h :: t2 => (c :: h) :: t2

/-- `str.split(";")`. -/
def splitSemi (s : String) : List String :=
  (splitSemiChars s.toList).map String.mk

/-- `explode_parts` (`rs2_dr_dashboard.py` lines 58–66): split each non-null
cell on `";"`, strip each token, drop empty tokens, count occurrences. -/
def explode_parts (cells : List Cell) : List (String × Nat) :=
  countsOf ((dropna cells).flatMap
    (fun raw => ((splitSemi raw).map strip).filter (fun t => t ≠ "")))

end Dash

namespace ScanRecords

open Dash

/-- One raw row of `scan_records.csv` after `pd.read_csv` and
`pd.to_datetime(..., errors="coerce")` (line 19): text columns are cells,
the timestamp is seconds since the epoch (`none` = `NaT`). -/
structure Row where
  accountId : Cell
  email : Cell
  vin : Cell
  state : Cell
  created : Option Int
deriving DecidableEq

/-- A row after `load_data` normalization (lines 16–30). -/
structure NRow where
  accountId : String
  email : String
  vin : String
  state : Cell
  created : Option Int
  accountKey : String
deriving DecidableEq

/-- `load_data` (`scan_records_dashboard.py` lines 16–30) on one row:
`astype(str).str.strip()` for AccountId/Email/VIN, state normalization, and
`AccountKey = AccountId.where(AccountId.ne(""), Email)`. -/
def loadRow (r : Row) : NRow :=
  let aid := strip (pyStr r.accountId)
  let em := strip (pyStr r.email)
  { accountId := aid
    email := em
    vin := strip (pyStr r.vin)
    state := normalizeState r.state
    created := r.created
    accountKey := if aid ≠ "" then aid else em }

/-- `load_data` over the whole frame. -/
def load_data (rows : List Row) : List NRow := rows.map loadRow

/-- `total_scans = len(df)` (line 42). -/
def total_scans (recs : List NRow) : Nat := recs.length

/-- `user_counts = df.groupby("AccountKey").size()` (line 44). -/
def user_counts (recs : List NRow) : List (String × Nat) :=
  groupbySize (recs.map (·.accountKey))

/-- The entries of `user_counts` with `size > 1` (line 45). -/
def repeat_user_entries (recs : List NRow) : List (String × Nat) :=
  (user_counts recs).filter (fun p => 1 < p.2)

/-- `repeat_user_ids` (line 46). -/
def repeat_user_ids (recs : List NRow) : List String :=
  (repeat_user_entries recs).map Prod.fst

/-- `repeat_user_scans = user_counts[mask].sum()` (line 48). -/
def repeat_user_scans (recs : List NRow) : Nat :=
  ((repeat_user_entries recs).map Prod.snd).sum

/-- `repeat_user_scan_share` (line 49), divide-by-zero guarded to 0. -/
def repeat_user_scan_share (recs : List NRow) : ℚ :=
  if total_scans recs = 0 then 0
  else (repeat_user_scans recs : ℚ) / (total_scans recs : ℚ)

/-- `unique_users = user_counts.size` (line 51). -/
def unique_users (recs : List NRow) : Nat := (user_counts recs).length

/-- `repeat_users = repeat_user_mask.sum()` (line 52). -/
def repeat_users (recs : List NRow) : Nat := (repeat_user_entries recs).length

/-- `repeat_user_share` (line 53), divide-by-zero guarded to 0. -/
def repeat_user_share (recs : List NRow) : ℚ :=
  if unique_users recs = 0 then 0
  else (repeat_users recs : ℚ) / (unique_users recs : ℚ)

/-- The VIN column after load, as pandas cells: `astype(str)` leaves no
missing value, so every cell is present (line 24). -/
def vin_cells (recs : List NRow) : List Cell := recs.map (fun r => some r.vin)

/-- `vin_counts = df["VIN"].dropna().value_counts()` (line 55). -/
def vin_counts (recs : List NRow) : List (String × Nat) :=
  valueCounts (dropna (vin_cells recs))

/-- `Unique VINs` card: `vin_counts.size` (line 97). -/
def unique_vins (recs : List NRow) : Nat := (vin_counts recs).length

/-- `VINs scanned multiple times` card: `(vin_counts > 1).sum()`
(lines 56, 103). -/
def repeat_vins (recs : List NRow) : Nat :=
  ((vin_counts recs).filter (fun p => 1 < p.2)).length

/-- The non-null normalized states, in row order. -/
def state_values (recs : List NRow) : List String := recs.filterMap (·.state)

/-- `state_counts = df.dropna(subset=["State"]).groupby("State").size()
.sort_values(ascending=False)` (lines 109–111). -/
def state_counts (recs : List NRow) : List (String × Nat) :=
  sortDescBy Prod.snd (groupbySize (state_values recs))

/-- `repeat_state_counts` (lines 112–117): rows from repeat users, non-null
state, grouped by state. -/
def repeat_state_counts (recs : List NRow) : List (String × Nat) :=
  groupbySize
    (((recs.filter (fun r => r.accountKey ∈ repeat_user_ids recs)).filterMap
      (·.state)))

/-- One row of `state_summary` (lines 118–132). -/
structure StateRow where
  state : String
  total : Nat
  repeats : Nat
  repeatScanShare : ℚ
  scanShare : ℚ
deriving DecidableEq

/-- `state_summary` (lines 118–132): for each state of `state_counts`, the
total scans, repeat scans (reindexed, missing → 0) and the two share
ratios.  `total` is at least 1 for every emitted row, and the global
denominator is replaced by 1 when `total_scans` is 0. -/
def state_summary (recs : List NRow) : List StateRow :=
  (state_counts recs).map (fun p =>
    let rep := countVal (repeat_state_counts recs) p.1
    { state := p.1
      total := p.2
      repeats := rep
      repeatScanShare := (rep : ℚ) / (p.2 : ℚ)
      scanShare :=
        (p.2 : ℚ) / (if total_scans recs = 0 then 1 else (total_scans recs : ℚ)) })

/-- `user_state = df.dropna(subset=["State"])
.drop_duplicates(subset=["State", "AccountKey"])` (line 135), kept as the
deduplicated (state, key) pairs in first-occurrence order. -/
def user_state_pairs (recs : List NRow) : List (String × String) :=
  dedupFirst (recs.filterMap (fun r => r.state.map (fun s => (s, r.accountKey))))

/-- `repeat_users_by_state` (lines 136–140). -/
def repeat_users_by_state (recs : List NRow) : List (String × Nat) :=
  groupbySize
    (((user_state_pairs recs).filter
      (fun p => p.2 ∈ repeat_user_ids recs)).map Prod.fst)

/-- `unique_users_by_state = user_state.groupby("State").size()` (line 141). -/
def unique_users_by_state (recs : List NRow) : List (String × Nat) :=
  groupbySize ((user_state_pairs recs).map Prod.fst)

/-- One row of `repeat_user_state` (lines 142–155). -/
structure RepeatStateRow where
  state : String
  repeatUsers : Nat
  shareAllRepeat : ℚ
  shareInState : ℚ
deriving DecidableEq

/-- `repeat_user_state` (lines 142–155): per state of `state_counts`, the
repeat-user count (reindexed, missing → 0), the share of all repeat users
(denominator replaced by 1 when 0) and the in-state share (denominator 0
replaced by `pd.NA`, then `fillna(0)`). -/
def repeat_user_state (recs : List NRow) : List RepeatStateRow :=
  (state_counts recs).map (fun p =>
    let ru := countVal (repeat_users_by_state recs) p.1
    let uu := countVal (unique_users_by_state recs) p.1
    { state := p.1
      repeatUsers := ru
      shareAllRepeat :=
        (ru : ℚ) / (if repeat_users recs = 0 then 1 else (repeat_users recs : ℚ))
      shareInState := if uu = 0 then 0 else (ru : ℚ) / (uu : ℚ) })

/-- Daily bucket of a timestamp (`resample("D")` floors to the day). -/
def dayOf (t : Int) : Int := Int.fdiv t 86400

/-- `scans_by_day` (lines 157–163). -/
def scans_by_day (recs : List NRow) : List (Int × Nat) :=
  bucketSeries ((recs.filterMap (·.created)).map dayOf)

/-- The summary values of `summarize` (lines 40–165), bundled. -/
structure Summary where
  totalScans : Nat
  repeatUserScans : Nat
  repeatUserScanShare : ℚ
  uniqueUsers : Nat
  repeatUsers : Nat
  repeatUserShare : ℚ
  uniqueVins : Nat
  repeatVins : Nat
  stateSummary : List StateRow
  repeatUserState : List RepeatStateRow
  scansByDay : List (Int × Nat)
deriving DecidableEq

/-- `summarize` (`scan_records_dashboard.py` lines 40–165). -/
def summarize (recs : List NRow) : Summary :=
  { totalScans := total_scans recs
    repeatUserScans := repeat_user_scans recs
    repeatUserScanShare := repeat_user_scan_share recs
    uniqueUsers := unique_users recs
    repeatUsers := repeat_users recs
    repeatUserShare := repeat_user_share recs
    uniqueVins := unique_vins recs
    repeatVins := repeat_vins recs
    stateSummary := state_summary recs
    repeatUserState := repeat_user_state recs
    scansByDay := scans_by_day recs }

/-- `build_figures` line 181: `state_summary.nlargest(10, "total_scans")` —
the 10 largest rows by total scans, stable (`keep="first"`), descending. -/
def top_states (recs : List NRow) : List StateRow :=
  (sortDescBy (fun r => r.total) (state_summary recs)).take 10

end ScanRecords

namespace Rs2Dr

open Dash

/-- One raw row of `rs2_dr_0901.csv` after `pd.read_csv`,
`pd.to_datetime(..., errors="coerce", utc=True)` (lines 25–27) and
`pd.to_numeric(..., errors="coerce")` for Year/Mileage/TotalAbsCodes/
TotalSrsCodes (lines 31–32).  The timestamp is seconds since the epoch
(`none` = `NaT`); coerced numeric columns are `Option ℚ` (`Option Int` for
the integer-valued Year and UsbProductId columns); the parts-count columns
are integer cells (`none` = missing). -/
structure Row where
  created : Option Int
  state : Cell
  year : Option Int
  mileage : Option ℚ
  totalAbsCodes : Option ℚ
  totalSrsCodes : Option ℚ
  accountId : Cell
  make : Cell
  model : Cell
  vin : Cell
  usbProductId : Option Int
  milDtc : Cell
  milPartName : Cell
  absPartName : Cell
  srsPartName : Cell
  maintenancePartsCount : Option Int
  predictedPartsCount : Option Int
deriving DecidableEq

/-- `UserId` derivation (lines 34–36): `AccountId.astype(str).str.strip()`,
then values in `{"", "nan"}` become null. -/
def normUserId (c : Cell) : Cell :=
  let s := strip (pyStr c)
  if s = "" ∨ s = "nan" then none else some s

/-- `VehicleAge` derivation (lines 38–39): `2026 - Year`, nulled when the
year is missing or outside 1980–2026. -/
def vehicleAgeOf (y : Option Int) : Option Int :=
  match y with
  | none => none
  | some y => if y < 1980 ∨ 2026 < y then none else some (2026 - y)

/-- `vehicle_label` (lines 41–52): `f"{year} {make} {model}"` when year,
make and model are all present and the stripped make/model are non-empty;
otherwise null. -/
def vehicleLabel (y : Option Int) (mk md : Cell) : Cell :=
  match y, mk, md with
  | some y, some mk, some md =>
    let mk := strip mk
    let md := strip md
    if mk = "" ∨ md = "" then none
    else some (toString y ++ " " ++ mk ++ " " ++ md)
  | _, _, _ => none

/-- A row after `load_data` normalization (lines 22–55). -/
structure NRow where
  created : Option Int
  state : Cell
  userId : Cell
  year : Option Int
  vehicleAge : Option Int
  vehicle : Cell
  mileage : Option ℚ
  totalAbsCodes : Option ℚ
  totalSrsCodes : Option ℚ
  vin : Cell
  usbProductId : Option Int
  milDtc : Cell
  milPartName : Cell
  absPartName : Cell
  srsPartName : Cell
  maintenancePartsCount : Option Int
  predictedPartsCount : Option Int
deriving DecidableEq

/-- `load_data` (`rs2_dr_dashboard.py` lines 22–55) on one row. -/
def loadRow (r : Row) : NRow :=
  { created := r.created
    state := normalizeState r.state
    userId := normUserId r.accountId
    year := r.year
    vehicleAge := vehicleAgeOf r.year
    vehicle := vehicleLabel r.year r.make r.model
    mileage := r.mileage
    totalAbsCodes := r.totalAbsCodes
    totalSrsCodes := r.totalSrsCodes
    vin := r.vin
    usbProductId := r.usbProductId
    milDtc := r.milDtc
    milPartName := r.milPartName
    absPartName := r.absPartName
    srsPartName := r.srsPartName
    maintenancePartsCount := r.maintenancePartsCount
    predictedPartsCount := r.predictedPartsCount }

/-- `load_data` over the whole frame. -/
def load_data (rows : List Row) : List NRow := rows.map loadRow

/-- `total_scans = len(df)` (line 87). -/
def total_scans (recs : List NRow) : Nat := recs.length

/-- `avg_age = safe_mean(df["VehicleAge"])` (line 92). -/
def avg_age (recs : List NRow) : ℚ :=
  safe_mean (recs.filterMap (fun r => r.vehicleAge.map (fun a => (a : ℚ))))

/-- `avg_mileage` (line 93). -/
def avg_mileage (recs : List NRow) : ℚ :=
  safe_mean (recs.filterMap (·.mileage))

/-- `avg_abs_codes` (line 94). -/
def avg_abs_codes (recs : List NRow) : ℚ :=
  safe_mean (recs.filterMap (·.totalAbsCodes))

/-- `avg_srs_codes` (line 95). -/
def avg_srs_codes (recs : List NRow) : ℚ :=
  safe_mean (recs.filterMap (·.totalSrsCodes))

/-- `maintenance_parts_total = df["MaintenancePartsCount"].sum()` (line 96);
pandas `sum` skips missing values. -/
def maintenance_parts_total (recs : List NRow) : Int :=
  (recs.filterMap (·.maintenancePartsCount)).sum

/-- `predicted_parts_total` (line 97). -/
def predicted_parts_total (recs : List NRow) : Int :=
  (recs.filterMap (·.predictedPartsCount)).sum

/-- `unique_vins = df["VIN"].dropna().nunique()` (line 98). -/
def unique_vins (recs : List NRow) : Nat :=
  (dedupFirst (recs.filterMap (·.vin))).length

/-- `user_counts = df["UserId"].dropna().value_counts()` (line 100). -/
def user_counts (recs : List NRow) : List (String × Nat) :=
  valueCounts (recs.filterMap (·.userId))

/-- `total_scanned_users = user_counts.size` (line 101). -/
def total_scanned_users (recs : List NRow) : Nat := (user_counts recs).length

/-- `repeat_pairs` (lines 104–109): rows with both UserId and VIN present,
grouped by the (UserId, VIN) pair. -/
def repeat_pairs (recs : List NRow) : List ((String × String) × Nat) :=
  countsOf (recs.filterMap (fun r =>
    match r.userId, r.vin with
    | some u, some v => some (u, v)
    | _, _ => none))

/-- `repeat_accounts` (line 110): UserIds of pairs scanned at least twice,
deduplicated (`Series.unique`). -/
def repeat_accounts (recs : List NRow) : List String :=
  dedupFirst (((repeat_pairs recs).filter (fun p => 2 ≤ p.2)).map
    (fun p => p.1.1))

/-- `repeat_user_count` (line 111). -/
def repeat_user_count (recs : List NRow) : Nat := (repeat_accounts recs).length

/-- `repeat_user_share` (line 112), divide-by-zero guarded to 0. -/
def repeat_user_share (recs : List NRow) : ℚ :=
  if total_scanned_users recs = 0 then 0
  else (repeat_user_count recs : ℚ) / (total_scanned_users recs : ℚ)

/-- The non-null vehicle labels, in row order. -/
def vehicles (recs : List NRow) : List String := recs.filterMap (·.vehicle)

/-- `top_vehicles = df["Vehicle"].dropna().value_counts().head(10)`
(lines 183–185). -/
def top_vehicles (recs : List NRow) : List (String × Nat) :=
  (valueCounts (vehicles recs)).take 10

/-- `top_usb = df["UsbProductId"].dropna().astype(int).value_counts().head(5)`
(lines 186–194). -/
def top_usb (recs : List NRow) : List (Int × Nat) :=
  (valueCounts (recs.filterMap (·.usbProductId))).take 5

/-- `df["MIL DTC"].dropna().astype(str).str.strip()` (line 70). -/
def dtc_values (recs : List NRow) : List String :=
  (recs.filterMap (·.milDtc)).map strip

/-- The count part of `top_mil_dtc` (lines 69–72):
`value_counts().head(limit)` with `limit = 10`. -/
def mil_dtc_counts (recs : List NRow) : List (String × Nat) :=
  (valueCounts (dtc_values recs)).take 10

/-- The `MIL Part Name` cells of the rows whose stripped `MIL DTC` equals
`dtc` (line 74), exploded (lines 73–75). -/
def mil_parts_for (recs : List NRow) (dtc : String) : List (String × Nat) :=
  explode_parts ((recs.filter
    (fun r => strip (pyStr r.milDtc) = dtc)).map (·.milPartName))

/-- `top_mil_dtc` (lines 69–83): per top DTC, its scan count and the top 3
part-name tokens (the HTML string formatting of the parts is rendering). -/
def top_mil_dtc (recs : List NRow) : List (String × Nat × List (String × Nat)) :=
  (mil_dtc_counts recs).map (fun p => (p.1, p.2, mostCommon 3 (mil_parts_for recs p.1)))

/-- `abs_parts` (lines 196–201): top 10 exploded ABS part names. -/
def abs_parts (recs : List NRow) : List (String × Nat) :=
  mostCommon 10 (explode_parts (recs.map (·.absPartName)))

/-- `srs_parts` (lines 203–208): top 10 exploded SRS part names. -/
def srs_parts (recs : List NRow) : List (String × Nat) :=
  mostCommon 10 (explode_parts (recs.map (·.srsPartName)))

/-- The non-null normalized states, in row order. -/
def state_values (recs : List NRow) : List String := recs.filterMap (·.state)

/-- `scans_by_state` (lines 212–215): `dropna(subset=["State"])
.groupby("State").size().sort_values(ascending=False)`. -/
def scans_by_state (recs : List NRow) : List (String × Nat) :=
  sortDescBy Prod.snd (groupbySize (state_values recs))

/-- `chart_data["top_states"] = scans_by_state.head(10)` (line 256). -/
def top_states (recs : List NRow) : List (String × Nat) :=
  (scans_by_state recs).take 10

/-- Hourly bucket of a timestamp (`resample("h")` floors to the hour). -/
def hourOf (t : Int) : Int := Int.fdiv t 3600

/-- The hourly buckets of the parseable timestamps, in row order. -/
def hour_buckets (recs : List NRow) : List Int :=
  (recs.filterMap (·.created)).map hourOf

/-- `hourly` (lines 217–230): when some timestamp parsed, resample to hourly
counts and keep the buckets at or after `max_time - 23 hours`; otherwise
an empty frame. -/
def hourly (recs : List NRow) : List (Int × Nat) :=
  match hour_buckets recs with
  | [] => []
  | b :: t =>
    let lo := t.foldl min b
    let hi := t.foldl max b
    (resampleFrom (fun x => (b :: t).count x) lo ((hi - lo + 1).toNat)).filter
      (fun p => hi - 23 ≤ p.1)

/-- `repeat_users_by_state` (lines 232–239): rows of repeat users with a
non-null state, grouped by state, counting distinct UserIds. -/
def repeat_users_by_state (recs : List NRow) : List (String × Nat) :=
  groupbySize
    ((dedupFirst ((recs.filter (fun r =>
        match r.userId with
        | some u => u ∈ repeat_accounts recs
        | none => false)).filterMap (fun r =>
          match r.state, r.userId with
          | some s, some u => some (s, u)
          | _, _ => none))).map Prod.fst)

/-- The summary values of `summarize` (lines 86–275), bundled. -/
structure Summary where
  totalScans : Nat
  totalScannedUsers : Nat
  avgAge : ℚ
  avgMileage : ℚ
  avgAbsCodes : ℚ
  avgSrsCodes : ℚ
  maintenancePartsTotal : Int
  predictedPartsTotal : Int
  uniqueVins : Nat
  repeatUserCount : Nat
  repeatUserShare : ℚ
  topVehicles : List (String × Nat)
  topUsb : List (Int × Nat)
  milDtc : List (String × Nat × List (String × Nat))
  absParts : List (String × Nat)
  srsParts : List (String × Nat)
  scansByState : List (String × Nat)
  topStates : List (String × Nat)
  hourly : List (Int × Nat)
  repeatUsersByState : List (String × Nat)
deriving DecidableEq

/-- `summarize` (`rs2_dr_dashboard.py` lines 86–275). -/
def summarize (recs : List NRow) : Summary :=
  { totalScans := total_scans recs
    totalScannedUsers := total_scanned_users recs
    avgAge := avg_age recs
    avgMileage := avg_mileage recs
    avgAbsCodes := avg_abs_codes recs
    avgSrsCodes := avg_srs_codes recs
    maintenancePartsTotal := maintenance_parts_total recs
    predictedPartsTotal := predicted_parts_total recs
    uniqueVins := unique_vins recs
    repeatUserCount := repeat_user_count recs
    repeatUserShare := repeat_user_share recs
    topVehicles := top_vehicles recs
    topUsb := top_usb recs
    milDtc := top_mil_dtc recs
    absParts := abs_parts recs
    srsParts := srs_parts recs
    scansByState := scans_by_state recs
    topStates := top_states recs
    hourly := hourly recs
    repeatUsersByState := repeat_users_by_state recs }

end Rs2Dr

set_option linter.unusedSectionVars false
set_option maxRecDepth 100000

/-! ### Library lemmas about the counter, sorting, deduplication and
resampling building blocks. -/

namespace Dash

variable {α : Type _} [DecidableEq α]

theorem countVal_nil (k : α) : countVal ([] : List (α × Nat)) k = 0 := rfl

theorem countVal_cons (p : α × Nat) (l : List (α × Nat)) (k : α) :
    countVal (p :: l) k = (if p.1 = k then p.2 else 0) + countVal l k := by
  by_cases h : p.1 = k <;> simp [countVal, List.filter_cons, h]

theorem countVal_bump (l : List (α × Nat)) (k k' : α) :
    countVal (bump l k) k' = countVal l k' + (if k' = k then 1 else 0) := by
  induction l with
  | nil =>
    by_cases h : k' = k
    · subst h; simp [bump, countVal_cons, countVal_nil]
    · simp [bump, countVal_cons, countVal_nil, h, Ne.symm h]
  | cons p t ih =>
    obtain ⟨k₀, n⟩ := p
    by_cases h : k₀ = k
    · subst h
      simp only [bump, if_pos rfl]
      by_cases h' : k₀ = k'
      · subst h'; simp [countVal_cons]; omega
      · have h'' : ¬ k' = k₀ := fun hh => h' hh.symm
        simp [countVal_cons, h', h'']
    · simp only [bump, if_neg h, countVal_cons, ih]
      omega

theorem countVal_foldl (v : List α) (acc : List (α × Nat)) (k : α) :
    countVal (v.foldl bump acc) k = countVal acc k + v.count k := by
  induction v generalizing acc with
  | nil => simp
  | cons x t ih =>
    simp only [List.foldl_cons, ih, countVal_bump, List.count_cons, beq_iff_eq]
    by_cases h : k = x
    · simp [h]; omega
    · have h2 : ¬ x = k := fun hh => h hh.symm
      simp [h, h2]

theorem countVal_countsOf (v : List α) (k : α) :
    countVal (countsOf v) k = v.count k := by
  have h := countVal_foldl v [] k
  simpa [countsOf, countVal_nil] using h

theorem countVal_eq_zero_of_not_mem_keys {l : List (α × Nat)} {k : α}
    (h : k ∉ l.map Prod.fst) : countVal l k = 0 := by
  induction l with
  | nil => rfl
  | cons p t ih =>
    simp only [List.map_cons, List.mem_cons] at h
    push_neg at h
    have h1 : ¬ p.1 = k := fun hh => h.1 hh.symm
    simp [countVal_cons, h1, ih h.2]

theorem snd_eq_countVal_of_mem {l : List (α × Nat)} {p : α × Nat}
    (hn : (l.map Prod.fst).Nodup) (hm : p ∈ l) : countVal l p.1 = p.2 := by
  induction l with
  | nil => cases hm
  | cons q t ih =>
    simp only [List.map_cons, List.nodup_cons] at hn
    rcases List.mem_cons.mp hm with h | h
    · subst h
      have : p.1 ∉ t.map Prod.fst := hn.1
      simp [countVal_cons, countVal_eq_zero_of_not_mem_keys this]
    · have hq : ¬ q.1 = p.1 := by
        intro hh
        exact hn.1 (hh ▸ List.mem_map_of_mem Prod.fst h)
      simp [countVal_cons, hq, ih hn.2 h]

theorem keys_bump (l : List (α × Nat)) (k : α) :
    (bump l k).map Prod.fst =
      if k ∈ l.map Prod.fst then l.map Prod.fst else l.map Prod.fst ++ [k] := by
  induction l with
  | nil => simp [bump]
  | cons p t ih =>
    obtain ⟨k₀, n⟩ := p
    by_cases h : k₀ = k
    · subst h; simp [bump]
    · have h2 : ¬ k = k₀ := fun hh => h hh.symm
      by_cases hm : k ∈ t.map Prod.fst <;> simp [bump, h, h2, hm, ih]

theorem keys_foldl_bump (v : List α) (acc : List (α × Nat)) :
    (v.foldl bump acc).map Prod.fst =
      v.foldl (fun acc x => if x ∈ acc then acc else acc ++ [x]) (acc.map Prod.fst) := by
  induction v generalizing acc with
  | nil => rfl
  | cons x t ih => simp only [List.foldl_cons, ih, keys_bump]

theorem keys_countsOf_eq_dedupFirst (v : List α) :
    (countsOf v).map Prod.fst = dedupFirst v :=
  keys_foldl_bump v []

theorem mem_dedup_foldl (l : List α) (acc : List α) (a : α) :
    a ∈ l.foldl (fun acc x => if x ∈ acc then acc else acc ++ [x]) acc ↔
      a ∈ acc ∨ a ∈ l := by
  induction l generalizing acc with
  | nil => simp
  | cons x t ih =>
    simp only [List.foldl_cons, ih]
    by_cases h : x ∈ acc
    · simp only [if_pos h, List.mem_cons]
      constructor
      · rintro (ha | ha)
        · exact Or.inl ha
        · exact Or.inr (Or.inr ha)
      · rintro (ha | ha | ha)
        · exact Or.inl ha
        · exact Or.inl (ha ▸ h)
        · exact Or.inr ha
    · simp only [if_neg h, List.mem_append, List.mem_singleton, List.mem_cons]
      tauto

theorem mem_dedupFirst {l : List α} {a : α} : a ∈ dedupFirst l ↔ a ∈ l := by
  simpa [dedupFirst] using mem_dedup_foldl l [] a

theorem nodup_dedup_foldl (l : List α) (acc : List α) (h : acc.Nodup) :
    (l.foldl (fun acc x => if x ∈ acc then acc else acc ++ [x]) acc).Nodup := by
  induction l generalizing acc with
  | nil => exact h
  | cons x t ih =>
    simp only [List.foldl_cons]
    by_cases hx : x ∈ acc
    · simpa [hx] using ih acc h
    · have : (acc ++ [x]).Nodup := by simp [List.nodup_append, h, hx]
      simpa [hx] using ih _ this

theorem dedupFirst_nodup (l : List α) : (dedupFirst l).Nodup :=
  nodup_dedup_foldl l [] List.nodup_nil

theorem keys_countsOf_nodup (v : List α) : ((countsOf v).map Prod.fst).Nodup := by
  rw [keys_countsOf_eq_dedupFirst]; exact dedupFirst_nodup v

theorem countsOf_nodup (v : List α) : (countsOf v).Nodup :=
  (keys_countsOf_nodup v).of_map

theorem mem_keys_countsOf {v : List α} {a : α} :
    a ∈ (countsOf v).map Prod.fst ↔ a ∈ v := by
  rw [keys_countsOf_eq_dedupFirst]; exact mem_dedupFirst

theorem snd_sum_bump (l : List (α × Nat)) (k : α) :
    ((bump l k).map Prod.snd).sum = (l.map Prod.snd).sum + 1 := by
  induction l with
  | nil => simp [bump]
  | cons p t ih =>
    obtain ⟨k₀, n⟩ := p
    by_cases h : k₀ = k <;> simp [bump, h, ih] <;> omega

theorem snd_sum_foldl_bump (v : List α) (acc : List (α × Nat)) :
    ((v.foldl bump acc).map Prod.snd).sum = (acc.map Prod.snd).sum + v.length := by
  induction v generalizing acc with
  | nil => simp
  | cons x t ih => simp [List.foldl_cons, ih, snd_sum_bump]; omega

theorem snd_sum_countsOf (v : List α) :
    ((countsOf v).map Prod.snd).sum = v.length := by
  simpa using snd_sum_foldl_bump v []

theorem pos_of_mem_bump {l : List (α × Nat)} {k : α}
    (h : ∀ p ∈ l, 1 ≤ p.2) : ∀ p ∈ bump l k, 1 ≤ p.2 := by
  induction l with
  | nil => intro p hp; simp [bump] at hp; simp [hp]
  | cons q t ih =>
    obtain ⟨k₀, n⟩ := q
    intro p hp
    by_cases hk : k₀ = k
    · simp only [bump, if_pos hk, List.mem_cons] at hp
      rcases hp with hp | hp
      · simp [hp]
      · exact h p (List.mem_cons_of_mem _ hp)
    · simp only [bump, if_neg hk, List.mem_cons] at hp
      rcases hp with hp | hp
      · exact h p (hp ▸ List.mem_cons_self _ _)
      · exact ih (fun q hq => h q (List.mem_cons_of_mem _ hq)) p hp

theorem pos_of_mem_foldl_bump (v : List α) :
    ∀ (acc : List (α × Nat)), (∀ q ∈ acc, 1 ≤ q.2) →
      ∀ q ∈ v.foldl bump acc, 1 ≤ q.2 := by
  induction v with
  | nil => intro acc hacc q hq; exact hacc q hq
  | cons x t ih =>
    intro acc hacc q hq
    exact ih (bump acc x) (pos_of_mem_bump hacc) q hq

theorem pos_of_mem_countsOf {v : List α} {p : α × Nat} (hp : p ∈ countsOf v) :
    1 ≤ p.2 :=
  pos_of_mem_foldl_bump v [] (by simp) p hp

theorem snd_eq_count_of_mem_countsOf {v : List α} {p : α × Nat}
    (hp : p ∈ countsOf v) : p.2 = v.count p.1 := by
  rw [← countVal_countsOf]
  exact (snd_eq_countVal_of_mem (keys_countsOf_nodup v) hp).symm

theorem insDesc_perm (f : α → Nat) (p : α) (l : List α) :
    List.Perm (insDesc f p l) (p :: l) := by
  induction l with
  | nil => exact List.Perm.refl _
  | cons q t ih =>
    by_cases h : f q ≤ f p
    · simp [insDesc, h]
    · simp only [insDesc, if_neg h]
      exact ((ih.cons q).trans (List.Perm.swap p q t))

theorem sortDescBy_perm (f : α → Nat) (l : List α) : List.Perm (sortDescBy f l) l := by
  induction l with
  | nil => exact List.Perm.refl _
  | cons x t ih => exact (insDesc_perm f x (sortDescBy f t)).trans (ih.cons x)

theorem mem_insDesc {f : α → Nat} {p a : α} {l : List α} :
    a ∈ insDesc f p l ↔ a = p ∨ a ∈ l := by
  rw [(insDesc_perm f p l).mem_iff]; simp

theorem insDesc_sorted {f : α → Nat} {p : α} {l : List α}
    (h : l.Pairwise (fun a b => f b ≤ f a)) :
    (insDesc f p l).Pairwise (fun a b => f b ≤ f a) := by
  induction l with
  | nil => simp [insDesc]
  | cons q t ih =>
    rcases List.pairwise_cons.mp h with ⟨hq, ht⟩
    by_cases hle : f q ≤ f p
    · simp only [insDesc, if_pos hle]
      refine List.pairwise_cons.mpr ⟨?_, h⟩
      intro b hb
      rcases List.mem_cons.mp hb with hb | hb
      · exact hb ▸ hle
      · exact le_trans (hq b hb) hle
    · simp only [insDesc, if_neg hle]
      refine List.pairwise_cons.mpr ⟨?_, ih ht⟩
      intro b hb
      rcases mem_insDesc.mp hb with hb | hb
      · exact hb ▸ le_of_not_le hle
      · exact hq b hb

theorem sortDescBy_sorted (f : α → Nat) (l : List α) :
    (sortDescBy f l).Pairwise (fun a b => f b ≤ f a) := by
  induction l with
  | nil => simp [sortDescBy]
  | cons x t ih => exact insDesc_sorted ih

theorem sublist_insDesc (f : α → Nat) (p : α) (l : List α) :
    List.Sublist l (insDesc f p l) := by
  induction l with
  | nil => simp [insDesc]
  | cons q t ih =>
    by_cases h : f q ≤ f p
    · simp only [insDesc, if_pos h]
      exact (List.sublist_cons_self p (q :: t))
    · simp only [insDesc, if_neg h]
      exact List.Sublist.cons₂ q ih

theorem pair_sublist_insDesc {f : α → Nat} {p b : α} {l : List α}
    (hb : b ∈ l) (hle : f b ≤ f p) : List.Sublist [p, b] (insDesc f p l) := by
  induction l with
  | nil => cases hb
  | cons q t ih =>
    by_cases h : f q ≤ f p
    · simp only [insDesc, if_pos h]
      exact List.Sublist.cons₂ p (List.singleton_sublist.mpr hb)
    · simp only [insDesc, if_neg h]
      rcases List.mem_cons.mp hb with hb | hb
      · exact absurd (hb ▸ hle) h
      · exact List.Sublist.cons q (ih hb)

theorem pair_sublist_sortDescBy {f : α → Nat} {a b : α} {l : List α}
    (h : List.Sublist [a, b] l) (hle : f b ≤ f a) :
    List.Sublist [a, b] (sortDescBy f l) := by
  induction l with
  | nil => cases h
  | cons x t ih =>
    cases h with
    | cons _ h => exact (ih h).trans (sublist_insDesc f x (sortDescBy f t))
    | cons₂ _ h =>
      have hb : b ∈ sortDescBy f t :=
        (sortDescBy_perm f t).mem_iff.mpr (List.singleton_sublist.mp h)
      exact pair_sublist_insDesc hb hle

theorem pair_sublist_total {a b : α} {l : List α}
    (ha : a ∈ l) (hb : b ∈ l) (hne : a ≠ b) :
    List.Sublist [a, b] l ∨ List.Sublist [b, a] l := by
  induction l with
  | nil => cases ha
  | cons x t ih =>
    rcases List.mem_cons.mp ha with hax | hat
    · subst hax
      have hbt : b ∈ t := by
        rcases List.mem_cons.mp hb with hbx | hbt
        · exact absurd hbx.symm hne
        · exact hbt
      exact Or.inl (List.Sublist.cons₂ a (List.singleton_sublist.mpr hbt))
    · rcases List.mem_cons.mp hb with hbx | hbt
      · subst hbx
        exact Or.inr (List.Sublist.cons₂ b (List.singleton_sublist.mpr hat))
      · rcases ih hat hbt with h | h
        · exact Or.inl (List.Sublist.cons x h)
        · exact Or.inr (List.Sublist.cons x h)

theorem eq_of_pair_sublist_both {a b : α} {l : List α} (hn : l.Nodup)
    (h₁ : List.Sublist [a, b] l) (h₂ : List.Sublist [b, a] l) : a = b := by
  induction l with
  | nil => cases h₁
  | cons x t ih =>
    rcases List.nodup_cons.mp hn with ⟨hx, ht⟩
    cases h₁ with
    | cons _ h₁ =>
      cases h₂ with
      | cons _ h₂ => exact ih ht h₁ h₂
      | cons₂ _ h₂ => exact absurd (h₁.subset (by simp)) hx
    | cons₂ _ h₁ =>
      cases h₂ with
      | cons _ h₂ => exact absurd (h₂.subset (by simp)) hx
      | cons₂ _ h₂ => rfl

theorem not_pair_self_sublist {a : α} {l : List α} (hn : l.Nodup) :
    ¬ List.Sublist [a, a] l := by
  intro h
  have h2 : List.count a [a, a] ≤ List.count a l := h.count_le a
  have h1 : List.count a l ≤ 1 := List.nodup_iff_count_le_one.mp hn a
  simp [List.count_cons] at h2
  omega

theorem pair_sublist_of_sortDescBy {f : α → Nat} {a b : α} {l : List α}
    (hn : l.Nodup) (h : List.Sublist [a, b] (sortDescBy f l)) (htie : f a = f b) :
    List.Sublist [a, b] l := by
  have hns : (sortDescBy f l).Nodup := (sortDescBy_perm f l).nodup_iff.mpr hn
  have hne : a ≠ b := by
    intro he
    exact not_pair_self_sublist hns (he ▸ h)
  have ha : a ∈ l := (sortDescBy_perm f l).mem_iff.mp (h.subset (by simp))
  have hb : b ∈ l := (sortDescBy_perm f l).mem_iff.mp (h.subset (by simp))
  rcases pair_sublist_total ha hb hne with hab | hba
  · exact hab
  · have : List.Sublist [b, a] (sortDescBy f l) :=
      pair_sublist_sortDescBy hba (le_of_eq htie)
    exact absurd (eq_of_pair_sublist_both hns h this) hne

theorem leChars_total : ∀ a b : List Char,
    leChars a b = false → leChars b a = true := by
  intro a
  induction a with
  | nil => intro b h; simp [leChars] at h
  | cons c s ih =>
    intro b h
    cases b with
    | nil => rfl
    | cons d t =>
      unfold leChars at h ⊢
      by_cases h1 : c.toNat < d.toNat
      · rw [if_pos h1] at h; cases h
      · rw [if_neg h1] at h
        by_cases h2 : d.toNat < c.toNat
        · rw [if_pos h2]
        · rw [if_neg h2] at h
          rw [if_neg h2, if_neg h1]
          exact ih t h

theorem leChars_trans : ∀ a b c : List Char,
    leChars a b = true → leChars b c = true → leChars a c = true := by
  intro a
  induction a with
  | nil => intro b c _ _; rfl
  | cons x s ih =>
    intro b c h1 h2
    cases b with
    | nil => cases h1
    | cons y t =>
      cases c with
      | nil => cases h2
      | cons z u =>
        unfold leChars at h1 h2 ⊢
        by_cases hxy : x.toNat < y.toNat
        · by_cases hyz : y.toNat < z.toNat
          · rw [if_pos (by omega : x.toNat < z.toNat)]
          · rw [if_neg hyz] at h2
            by_cases hzy : z.toNat < y.toNat
            · rw [if_pos hzy] at h2; cases h2
            · rw [if_neg hzy] at h2
              rw [if_pos (by omega : x.toNat < z.toNat)]
        · rw [if_neg hxy] at h1
          by_cases hyx : y.toNat < x.toNat
          · rw [if_pos hyx] at h1; cases h1
          · rw [if_neg hyx] at h1
            by_cases hyz : y.toNat < z.toNat
            · rw [if_pos (by omega : x.toNat < z.toNat)]
            · rw [if_neg hyz] at h2
              by_cases hzy : z.toNat < y.toNat
              · rw [if_pos hzy] at h2; cases h2
              · rw [if_neg hzy] at h2
                rw [if_neg (by omega : ¬ x.toNat < z.toNat),
                  if_neg (by omega : ¬ z.toNat < x.toNat)]
                exact ih t u h1 h2

theorem strLe_total (a b : String) (h : strLe a b = false) : strLe b a = true :=
  leChars_total a.toList b.toList h

theorem strLe_trans (a b c : String) (h1 : strLe a b = true)
    (h2 : strLe b c = true) : strLe a c = true :=
  leChars_trans a.toList b.toList c.toList h1 h2

theorem insAsc_perm (le : α → α → Bool) (p : α) (l : List α) :
    List.Perm (insAsc le p l) (p :: l) := by
  induction l with
  | nil => exact List.Perm.refl _
  | cons q t ih =>
    by_cases h : le p q = true
    · simp [insAsc, h]
    · simp only [insAsc, h, if_false, Bool.false_eq_true]
      exact ((ih.cons q).trans (List.Perm.swap p q t))

theorem sortAscBy_perm (le : α → α → Bool) (l : List α) :
    List.Perm (sortAscBy le l) l := by
  induction l with
  | nil => exact List.Perm.refl _
  | cons x t ih => exact (insAsc_perm le x (sortAscBy le t)).trans (ih.cons x)

theorem mem_insAsc {le : α → α → Bool} {p a : α} {l : List α} :
    a ∈ insAsc le p l ↔ a = p ∨ a ∈ l := by
  rw [(insAsc_perm le p l).mem_iff]; simp

theorem insAsc_sorted {le : α → α → Bool}
    (htot : ∀ a b, le a b = false → le b a = true)
    (htrans : ∀ a b c, le a b = true → le b c = true → le a c = true)
    {p : α} {l : List α} (h : l.Pairwise (fun a b => le a b = true)) :
    (insAsc le p l).Pairwise (fun a b => le a b = true) := by
  induction l with
  | nil => simp [insAsc]
  | cons q t ih =>
    rcases List.pairwise_cons.mp h with ⟨hq, ht⟩
    by_cases hle : le p q = true
    · simp only [insAsc, if_pos hle]
      refine List.pairwise_cons.mpr ⟨?_, h⟩
      intro b hb
      rcases List.mem_cons.mp hb with hb | hb
      · exact hb ▸ hle
      · exact htrans p q b hle (hq b hb)
    · simp only [insAsc, hle, if_false, Bool.false_eq_true]
      refine List.pairwise_cons.mpr ⟨?_, ih ht⟩
      intro b hb
      rcases mem_insAsc.mp hb with hb | hb
      · exact hb ▸ htot p q (Bool.eq_false_iff.mpr hle)
      · exact hq b hb

theorem sortAscBy_sorted {le : α → α → Bool}
    (htot : ∀ a b, le a b = false → le b a = true)
    (htrans : ∀ a b c, le a b = true → le b c = true → le a c = true)
    (l : List α) :
    (sortAscBy le l).Pairwise (fun a b => le a b = true) := by
  induction l with
  | nil => simp [sortAscBy]
  | cons x t ih => exact insAsc_sorted htot htrans ih

theorem countVal_perm {l l' : List (α × Nat)} (h : List.Perm l l') (k : α) :
    countVal l k = countVal l' k := by
  unfold countVal
  exact ((h.filter _).map Prod.snd).sum_eq

theorem groupbySize_perm_countsOf (v : List String) :
    List.Perm (groupbySize v) (countsOf v) :=
  sortAscBy_perm _ (countsOf v)

theorem countVal_groupbySize (v : List String) (k : String) :
    countVal (groupbySize v) k = v.count k := by
  rw [countVal_perm (groupbySize_perm_countsOf v) k, countVal_countsOf]

theorem length_groupbySize (v : List String) :
    (groupbySize v).length = (countsOf v).length :=
  (groupbySize_perm_countsOf v).length_eq

theorem keys_groupbySize_nodup (v : List String) :
    ((groupbySize v).map Prod.fst).Nodup :=
  (((groupbySize_perm_countsOf v).map Prod.fst).nodup_iff).mpr (keys_countsOf_nodup v)

theorem mem_groupbySize_iff {v : List String} {p : String × Nat} :
    p ∈ groupbySize v ↔ p ∈ countsOf v :=
  (groupbySize_perm_countsOf v).mem_iff

theorem keys_groupbySize_sorted (v : List String) :
    (groupbySize v).Pairwise (fun a b => strLe a.1 b.1 = true) :=
  sortAscBy_sorted
    (fun a b h => strLe_total a.1 b.1 h)
    (fun a b c h1 h2 => strLe_trans a.1 b.1 c.1 h1 h2)
    (countsOf v)

theorem snd_sum_perm {l l' : List (α × Nat)} (h : List.Perm l l') :
    (l.map Prod.snd).sum = (l'.map Prod.snd).sum :=
  (h.map Prod.snd).sum_eq

theorem snd_sum_groupbySize (v : List String) :
    ((groupbySize v).map Prod.snd).sum = v.length := by
  rw [snd_sum_perm (groupbySize_perm_countsOf v), snd_sum_countsOf]

theorem ratio01 (a b : Nat) (h : a ≤ b) :
    0 ≤ (a : ℚ) / (b : ℚ) ∧ (a : ℚ) / (b : ℚ) ≤ 1 := by
  refine ⟨by positivity, ?_⟩
  rcases Nat.eq_zero_or_pos b with hb | hb
  · have ha : a = 0 := by omega
    subst ha; subst hb; norm_num
  · rw [div_le_one (by exact_mod_cast hb)]
    exact_mod_cast h

theorem foldl_min_le_init (t : List Int) (b : Int) : t.foldl min b ≤ b := by
  induction t generalizing b with
  | nil => exact le_refl b
  | cons x s ih => exact le_trans (ih (min b x)) (min_le_left b x)

theorem foldl_min_le_mem {t : List Int} {a : Int} (b : Int) (h : a ∈ t) :
    t.foldl min b ≤ a := by
  induction t generalizing b with
  | nil => cases h
  | cons x s ih =>
    rcases List.mem_cons.mp h with hx | hs
    · subst hx
      exact le_trans (foldl_min_le_init s (min b a)) (min_le_right b a)
    · exact ih (min b x) hs

theorem init_le_foldl_max (t : List Int) (b : Int) : b ≤ t.foldl max b := by
  induction t generalizing b with
  | nil => exact le_refl b
  | cons x s ih => exact le_trans (le_max_left b x) (ih (max b x))

theorem mem_le_foldl_max {t : List Int} {a : Int} (b : Int) (h : a ∈ t) :
    a ≤ t.foldl max b := by
  induction t generalizing b with
  | nil => cases h
  | cons x s ih =>
    rcases List.mem_cons.mp h with hx | hs
    · subst hx
      exact le_trans (le_max_right b a) (init_le_foldl_max s (max b a))
    · exact ih (max b x) hs

theorem resampleFrom_length (cnt : Int → Nat) :
    ∀ (n : Nat) (b : Int), (resampleFrom cnt b n).length = n := by
  intro n
  induction n with
  | zero => intro b; rfl
  | succ m ih => intro b; simp [resampleFrom, ih]

theorem resampleFrom_concat (cnt : Int → Nat) :
    ∀ (n : Nat) (b : Int), resampleFrom cnt b (n + 1) =
      resampleFrom cnt b n ++ [(b + n, cnt (b + n))] := by
  intro n
  induction n with
  | zero => intro b; simp [resampleFrom]
  | succ m ih =>
    intro b
    have step : resampleFrom cnt b (m + 2) =
        (b, cnt b) :: resampleFrom cnt (b + 1) (m + 1) := rfl
    rw [step, ih (b + 1)]
    have harg : b + 1 + (m : Int) = b + ((m : Int) + 1) := by ring
    simp [resampleFrom, harg]

theorem resampleFrom_getLast (cnt : Int → Nat) (n : Nat) (b : Int) (h : n ≠ 0) :
    (resampleFrom cnt b n).getLast? =
      some (b + (n : Int) - 1, cnt (b + (n : Int) - 1)) := by
  rcases Nat.exists_eq_succ_of_ne_zero h with ⟨m, rfl⟩
  rw [resampleFrom_concat]
  rw [List.getLast?_concat]
  have : b + ((m : Int) + 1) - 1 = b + (m : Int) := by ring
  simp [this]

theorem resampleFrom_head (cnt : Int → Nat) (n : Nat) (b : Int) (h : n ≠ 0) :
    (resampleFrom cnt b n).head? = some (b, cnt b) := by
  rcases Nat.exists_eq_succ_of_ne_zero h with ⟨m, rfl⟩
  rfl

theorem resampleFrom_chain (cnt : Int → Nat) :
    ∀ (n : Nat) (b : Int),
      (resampleFrom cnt b n).Chain' (fun p q => q.1 = p.1 + 1) := by
  intro n
  induction n with
  | zero => intro b; simp [resampleFrom]
  | succ m ih =>
    intro b
    rw [resampleFrom]
    apply List.chain'_cons'.mpr
    refine ⟨?_, ih (b + 1)⟩
    intro q hq
    cases m with
    | zero => simp [resampleFrom] at hq
    | succ m2 =>
      rw [resampleFrom_head cnt (m2 + 1) (b + 1) (Nat.succ_ne_zero m2)] at hq
      cases hq
      rfl

theorem resampleFrom_filter_all (cnt : Int → Nat) (s : Int) :
    ∀ (n : Nat) (b : Int), s ≤ b →
      (resampleFrom cnt b n).filter (fun p => s ≤ p.1) = resampleFrom cnt b n := by
  intro n
  induction n with
  | zero => intro b _; rfl
  | succ m ih =>
    intro b hb
    rw [resampleFrom, List.filter_cons]
    have hd : decide (s ≤ (b, cnt b).1) = true := by simpa using hb
    rw [hd]
    simp only [if_true]
    rw [ih (b + 1) (by omega)]

theorem resampleFrom_filter_ge (cnt : Int → Nat) (s : Int) :
    ∀ (n : Nat) (b : Int),
      (resampleFrom cnt b n).filter (fun p => s ≤ p.1) =
        resampleFrom cnt (b + ((s - b).toNat : Int)) (n - (s - b).toNat) := by
  intro n
  induction n with
  | zero => intro b; simp [resampleFrom]
  | succ m ih =>
    intro b
    by_cases h : s ≤ b
    · have h0 : (s - b).toNat = 0 := by omega
      rw [h0]
      simp only [Nat.cast_zero, add_zero, Nat.sub_zero]
      exact resampleFrom_filter_all cnt s (m + 1) b h
    · rw [resampleFrom, List.filter_cons]
      have hd : decide (s ≤ (b, cnt b).1) = false := by simpa using h
      rw [hd]
      simp only [Bool.false_eq_true, if_false]
      rw [ih (b + 1)]
      congr 1 <;> omega

theorem mem_fst_resampleFrom (cnt : Int → Nat) :
    ∀ (n : Nat) (b x : Int), b ≤ x → x < b + n →
      x ∈ (resampleFrom cnt b n).map Prod.fst := by
  intro n
  induction n with
  | zero => intro b x h1 h2; omega
  | succ m ih =>
    intro b x h1 h2
    rw [resampleFrom]
    rcases eq_or_lt_of_le h1 with he | hlt
    · simp [← he]
    · simp only [List.map_cons, List.mem_cons]
      exact Or.inr (ih (b + 1) x (by omega) (by omega))

theorem toNat_bounds_of_upperAZ (c : Char) (h : isUpperAZ c = true) :
    65 ≤ c.toNat ∧ c.toNat ≤ 90 := by
  unfold isUpperAZ at h
  rw [Bool.and_eq_true] at h
  obtain ⟨h1, h2⟩ := h
  rw [decide_eq_true_eq] at h1 h2
  rw [Char.le_def] at h1 h2
  exact ⟨h1, h2⟩

theorem toUpper_eq_self {c : Char} (h : isUpperAZ c = true) : c.toUpper = c := by
  obtain ⟨h1, h2⟩ := toNat_bounds_of_upperAZ c h
  unfold Char.toUpper
  rw [if_neg]
  omega

theorem not_ws_of_upperAZ {c : Char} (h : isUpperAZ c = true) :
    c.isWhitespace = false := by
  obtain ⟨h1, h2⟩ := toNat_bounds_of_upperAZ c h
  unfold Char.isWhitespace
  simp only [Bool.or_eq_false_iff, decide_eq_false_iff_not]
  refine ⟨⟨⟨?_, ?_⟩, ?_⟩, ?_⟩ <;> intro he <;> rw [he] at h1 h2 <;> simp at h1 h2

theorem dropWhile_eq_self_of_none {p : Char → Bool} {l : List Char}
    (h : ∀ c ∈ l, p c = false) : l.dropWhile p = l := by
  cases l with
  | nil => rfl
  | cons x t => simp [List.dropWhile_cons, h x (List.mem_cons_self x t)]

theorem stripChars_eq_self {l : List Char}
    (h : ∀ c ∈ l, c.isWhitespace = false) : stripChars l = l := by
  unfold stripChars
  rw [dropWhile_eq_self_of_none h]
  rw [dropWhile_eq_self_of_none (fun c hc => h c (List.mem_reverse.mp hc))]
  exact List.reverse_reverse l

theorem isStateCode_chars {s : String} (h : isStateCode s = true) :
    ∀ c ∈ s.toList, isUpperAZ c = true := by
  unfold isStateCode at h
  intro c hc
  cases hl : s.toList with
  | nil => rw [hl] at hc; cases hc
  | cons c₁ t =>
    cases t with
    | nil => rw [hl] at h; cases h
    | cons c₂ t2 =>
      cases t2 with
      | nil =>
        rw [hl] at h hc
        rw [Bool.and_eq_true] at h
        rcases List.mem_cons.mp hc with rfl | hc2
        · exact h.1
        · rcases List.mem_cons.mp hc2 with rfl | hc3
          · exact h.2
          · cases hc3
      | cons c₃ t3 => rw [hl] at h; cases h

theorem string_mk_toList (s : String) : String.mk s.toList = s := rfl

theorem strip_of_stateCode {s : String} (h : isStateCode s = true) :
    strip s = s := by
  have hc := isStateCode_chars h
  unfold strip
  rw [stripChars_eq_self (fun c hcm => not_ws_of_upperAZ (hc c hcm))]
  exact string_mk_toList s

theorem upper_of_stateCode {s : String} (h : isStateCode s = true) :
    upper s = s := by
  have hc := isStateCode_chars h
  unfold upper
  rw [List.map_congr_left (fun c hcm => toUpper_eq_self (hc c hcm))]
  rw [List.map_id']
  exact string_mk_toList s

theorem normalizeState_some_of_stateCode {s : String} (h : isStateCode s = true) :
    normalizeState (some s) = some s := by
  unfold normalizeState pyStr
  simp only [strip_of_stateCode h, upper_of_stateCode h, if_pos h]

theorem normalizeState_none : normalizeState none = none := by decide

theorem normalizeState_idem (c : Cell) :
    normalizeState (normalizeState c) = normalizeState c := by
  unfold normalizeState
  by_cases h : isStateCode (upper (strip (pyStr c))) = true
  · simp only [if_pos h]
    exact normalizeState_some_of_stateCode h
  · rw [if_neg h]
    exact normalizeState_none

end Dash

/-! ### Generic counting helpers. -/

namespace Dash

theorem count_map_eq_countP {α β : Type _} [DecidableEq β] (f : α → β)
    (l : List α) (b : β) :
    (l.map f).count b = l.countP (fun a => f a = b) := by
  induction l with
  | nil => rfl
  | cons x t ih =>
    rw [List.map_cons, List.count_cons, List.countP_cons, ih]
    by_cases h : f x = b <;> simp [h]

theorem count_filterMap_eq_countP {α β : Type _} [DecidableEq β]
    (f : α → Option β) (l : List α) (b : β) :
    (l.filterMap f).count b = l.countP (fun a => f a = some b) := by
  induction l with
  | nil => rfl
  | cons x t ih =>
    rw [List.filterMap_cons]
    cases hf : f x with
    | none => rw [List.countP_cons]; simp [hf, ih]
    | some y =>
      rw [List.count_cons, List.countP_cons, ih]
      by_cases hy : y = b <;> simp [hf, hy]

theorem rel_of_pair_sublist {α : Type _} {R : α → α → Prop} {l : List α}
    {a b : α} (h : List.Sublist [a, b] l) (hp : l.Pairwise R) : R a b := by
  have h2 := hp.sublist h
  exact (List.pairwise_cons.mp h2).1 b (List.mem_singleton.mpr rfl)

theorem eq_of_fst_eq_of_keys_nodup {α : Type _} {l : List (α × Nat)}
    {p q : α × Nat} (hn : (l.map Prod.fst).Nodup) (hp : p ∈ l) (hq : q ∈ l)
    (he : p.1 = q.1) : p = q :=
  List.inj_on_of_nodup_map hn hp hq he

end Dash

/-! ### Pipeline-level helper lemmas, `scan_records_dashboard.py`. -/

namespace ScanRecords

theorem sum_user_counts (recs : List NRow) :
    ((user_counts recs).map Prod.snd).sum = recs.length := by
  unfold user_counts
  rw [Dash.snd_sum_groupbySize, List.length_map]

theorem repeat_user_scans_le (recs : List NRow) :
    repeat_user_scans recs ≤ total_scans recs := by
  unfold repeat_user_scans total_scans
  calc ((repeat_user_entries recs).map Prod.snd).sum
      ≤ ((user_counts recs).map Prod.snd).sum := by
        apply List.Sublist.sum_le_sum
        · exact ((List.filter_sublist _)).map Prod.snd
        · intro a _; exact Nat.zero_le a
    _ = recs.length := sum_user_counts recs

theorem repeat_users_le (recs : List NRow) :
    repeat_users recs ≤ unique_users recs :=
  List.length_filter_le _ _

theorem mem_state_counts_iff {recs : List NRow} {p : String × Nat} :
    p ∈ state_counts recs ↔ p ∈ Dash.countsOf (state_values recs) := by
  unfold state_counts
  rw [(Dash.sortDescBy_perm _ _).mem_iff, Dash.mem_groupbySize_iff]

theorem state_counts_pos {recs : List NRow} {p : String × Nat}
    (hp : p ∈ state_counts recs) : 1 ≤ p.2 :=
  Dash.pos_of_mem_countsOf (mem_state_counts_iff.mp hp)

theorem state_counts_snd_eq {recs : List NRow} {p : String × Nat}
    (hp : p ∈ state_counts recs) : p.2 = (state_values recs).count p.1 :=
  Dash.snd_eq_count_of_mem_countsOf (mem_state_counts_iff.mp hp)

theorem repeats_le_state_total {recs : List NRow} {p : String × Nat}
    (hp : p ∈ state_counts recs) :
    Dash.countVal (repeat_state_counts recs) p.1 ≤ p.2 := by
  unfold repeat_state_counts
  rw [Dash.countVal_groupbySize, state_counts_snd_eq hp]
  exact ((List.filter_sublist recs).filterMap (·.state)).count_le p.1

theorem state_total_le_total {recs : List NRow} {p : String × Nat}
    (hp : p ∈ state_counts recs) : p.2 ≤ total_scans recs := by
  rw [state_counts_snd_eq hp]
  calc (state_values recs).count p.1
      ≤ (state_values recs).length := List.count_le_length p.1 _
    _ ≤ recs.length := List.length_filterMap_le _ _

theorem ru_le_uu (recs : List NRow) (s : String) :
    Dash.countVal (repeat_users_by_state recs) s ≤
      Dash.countVal (unique_users_by_state recs) s := by
  unfold repeat_users_by_state unique_users_by_state
  rw [Dash.countVal_groupbySize, Dash.countVal_groupbySize]
  exact ((List.filter_sublist _).map Prod.fst).count_le s

theorem ru_le_repeat_users (recs : List NRow) (s : String) :
    Dash.countVal (repeat_users_by_state recs) s ≤ repeat_users recs := by
  unfold repeat_users_by_state
  rw [Dash.countVal_groupbySize, Dash.count_map_eq_countP,
    List.countP_eq_length_filter]
  have hsubl :
      List.Sublist
        (((user_state_pairs recs).filter
            (fun p => p.2 ∈ repeat_user_ids recs)).filter (fun p => p.1 = s))
        (user_state_pairs recs) :=
    (List.filter_sublist _).trans (List.filter_sublist _)
  have hnodupM := List.Nodup.sublist hsubl (Dash.dedupFirst_nodup _)
  have hsnd :
      ((((user_state_pairs recs).filter
          (fun p => p.2 ∈ repeat_user_ids recs)).filter
            (fun p => p.1 = s)).map Prod.snd).Nodup := by
    apply List.Nodup.map_on ?_ hnodupM
    intro x hx y hy hxy
    have hx1 : x.1 = s := by
      have := (List.mem_filter.mp hx).2
      simpa using this
    have hy1 : y.1 = s := by
      have := (List.mem_filter.mp hy).2
      simpa using this
    exact Prod.ext (hx1.trans hy1.symm) hxy
  have hsubset :
      ((((user_state_pairs recs).filter
          (fun p => p.2 ∈ repeat_user_ids recs)).filter
            (fun p => p.1 = s)).map Prod.snd) ⊆ repeat_user_ids recs := by
    intro x hx
    rcases List.mem_map.mp hx with ⟨q, hq, he⟩
    have hq2 := (List.mem_filter.mp (List.mem_of_mem_filter hq)).2
    rw [← he]
    simpa using hq2
  have hlen := (List.subperm_of_subset hsnd hsubset).length_le
  rw [List.length_map] at hlen
  calc (((user_state_pairs recs).filter
          (fun p => p.2 ∈ repeat_user_ids recs)).filter
            (fun p => p.1 = s)).length
      ≤ (repeat_user_ids recs).length := hlen
    _ = repeat_users recs := List.length_map _ _

end ScanRecords

/-! ### Pipeline-level helper lemmas, `rs2_dr_dashboard.py`. -/

namespace Rs2Dr

theorem repeat_accounts_subset (recs : List NRow) :
    ∀ u ∈ repeat_accounts recs, u ∈ recs.filterMap (·.userId) := by
  intro u hu
  unfold repeat_accounts at hu
  rw [Dash.mem_dedupFirst] at hu
  rcases List.mem_map.mp hu with ⟨p, hp, he⟩
  have hpm := List.mem_of_mem_filter hp
  have hk : p.1 ∈ recs.filterMap (fun r =>
      match r.userId, r.vin with
      | some u, some v => some (u, v)
      | _, _ => none) :=
    Dash.mem_keys_countsOf.mp (List.mem_map_of_mem Prod.fst hpm)
  rcases List.mem_filterMap.mp hk with ⟨r, hr, hf⟩
  apply List.mem_filterMap.mpr
  refine ⟨r, hr, ?_⟩
  cases hu2 : r.userId with
  | none => rw [hu2] at hf; simp at hf
  | some u2 =>
    cases hv : r.vin with
    | none => rw [hu2, hv] at hf; simp at hf
    | some v2 =>
      rw [hu2, hv] at hf
      simp only [Option.some_inj] at hf
      rw [← he, ← hf]

theorem repeat_le_users (recs : List NRow) :
    repeat_user_count recs ≤ total_scanned_users recs := by
  have hsub : repeat_accounts recs ⊆
      (Dash.countsOf (recs.filterMap (·.userId))).map Prod.fst := by
    intro u hu
    exact Dash.mem_keys_countsOf.mpr (repeat_accounts_subset recs u hu)
  have hn : (repeat_accounts recs).Nodup := Dash.dedupFirst_nodup _
  have hlen := (List.subperm_of_subset hn hsub).length_le
  rw [List.length_map] at hlen
  unfold repeat_user_count total_scanned_users user_counts Dash.valueCounts
  rw [(Dash.sortDescBy_perm _ _).length_eq]
  exact hlen

end Rs2Dr

/-! ### The claims. -/

/-- C6: State-code normalization (trim, uppercase, set to null anything not
matching exactly two uppercase letters) is idempotent: applying it a second
time to an already-normalized state value leaves every value unchanged. -/
theorem spec_C6_normalize_idempotent (c : Dash.Cell) :
    Dash.normalizeState (Dash.normalizeState c) = Dash.normalizeState c :=
  Dash.normalizeState_idem c

/-- C7: multi-value explosion splits each non-null cell on `;`, trims each
token, drops empty tokens, and accumulates a count per distinct token across
all rows (token counts match the flattened token stream, one counter key per
distinct token in first-encounter order); in particular the single cell
`"A; B ;B"` yields exactly the counts `{A: 1, B: 2}`. -/
theorem spec_C7_explode_parts :
    (∀ (cells : List Dash.Cell) (tok : String),
      Dash.countVal (Dash.explode_parts cells) tok =
        ((Dash.dropna cells).flatMap (fun raw =>
          ((Dash.splitSemi raw).map Dash.strip).filter (fun t => t ≠ ""))).count tok)
    ∧ (∀ cells : List Dash.Cell,
        (Dash.explode_parts cells).map Prod.fst =
          Dash.dedupFirst ((Dash.dropna cells).flatMap (fun raw =>
            ((Dash.splitSemi raw).map Dash.strip).filter (fun t => t ≠ ""))))
    ∧ Dash.explode_parts [some "A; B ;B"] = [("A", 1), ("B", 2)] := by
  refine ⟨?_, ?_, ?_⟩
  · intro cells tok
    exact Dash.countVal_countsOf _ tok
  · intro cells
    exact Dash.keys_countsOf_eq_dedupFirst _
  · decide

/-- C9: an input with zero data rows raises nothing: every count metric is 0,
every mean metric is 0 (not NaN), every share is 0, and every ranked table
and series is empty, in both scripts. -/
theorem spec_C9_empty_input :
    ScanRecords.summarize (ScanRecords.load_data []) =
      { totalScans := 0, repeatUserScans := 0, repeatUserScanShare := 0,
        uniqueUsers := 0, repeatUsers := 0, repeatUserShare := 0,
        uniqueVins := 0, repeatVins := 0, stateSummary := [],
        repeatUserState := [], scansByDay := [] }
    ∧ Rs2Dr.summarize (Rs2Dr.load_data []) =
      { totalScans := 0, totalScannedUsers := 0, avgAge := 0, avgMileage := 0,
        avgAbsCodes := 0, avgSrsCodes := 0, maintenancePartsTotal := 0,
        predictedPartsTotal := 0, uniqueVins := 0, repeatUserCount := 0,
        repeatUserShare := 0, topVehicles := [], topUsb := [], milDtc := [],
        absParts := [], srsParts := [], scansByState := [], topStates := [],
        hourly := [], repeatUsersByState := [] } :=
  ⟨rfl, rfl⟩

/-- C5: for every input record set the total-scans metric equals the number
of normalized records, and every repeat count is bounded by its total: in
rs2 the repeat-user count is at most the distinct-user count; in
scan_records the repeat-user count is at most the unique-user count and the
repeat-user scan count is at most the total scan count. -/
theorem spec_C5_totals_and_repeat_bounds
    (drRows : List Rs2Dr.Row) (scRows : List ScanRecords.Row) :
    (Rs2Dr.summarize (Rs2Dr.load_data drRows)).totalScans = drRows.length
    ∧ (ScanRecords.summarize (ScanRecords.load_data scRows)).totalScans =
        scRows.length
    ∧ (Rs2Dr.summarize (Rs2Dr.load_data drRows)).repeatUserCount ≤
        (Rs2Dr.summarize (Rs2Dr.load_data drRows)).totalScannedUsers
    ∧ (ScanRecords.summarize (ScanRecords.load_data scRows)).repeatUsers ≤
        (ScanRecords.summarize (ScanRecords.load_data scRows)).uniqueUsers
    ∧ (ScanRecords.summarize (ScanRecords.load_data scRows)).repeatUserScans ≤
        (ScanRecords.summarize (ScanRecords.load_data scRows)).totalScans := by
  refine ⟨?_, ?_, ?_, ?_, ?_⟩
  · exact List.length_map _ _
  · exact List.length_map _ _
  · exact Rs2Dr.repeat_le_users _
  · exact ScanRecords.repeat_users_le _
  · exact ScanRecords.repeat_user_scans_le _

/-! ### Example-row constructors for concrete scenarios. -/

/-- A raw rs2 row with the given state, account, VIN and timestamp cells and
every other column missing. -/
def Rs2Dr.mkRow (st aid vin : Dash.Cell) (cr : Option Int) : Rs2Dr.Row :=
  { created := cr, state := st, year := none, mileage := none,
    totalAbsCodes := none, totalSrsCodes := none, accountId := aid,
    make := none, model := none, vin := vin, usbProductId := none,
    milDtc := none, milPartName := none, absPartName := none,
    srsPartName := none, maintenancePartsCount := none,
    predictedPartsCount := none }

/-- A raw scan_records row with the given cells and no timestamp. -/
def ScanRecords.mkRow (aid em vin st : Dash.Cell) : ScanRecords.Row :=
  { accountId := aid, email := em, vin := vin, state := st, created := none }

namespace Rs2Dr

theorem countVal_scans_by_state (recs : List NRow) (s : String) :
    Dash.countVal (scans_by_state recs) s =
      recs.countP (fun r => r.state = some s) := by
  unfold scans_by_state
  rw [Dash.countVal_perm (Dash.sortDescBy_perm _ _) s,
    Dash.countVal_groupbySize]
  unfold state_values
  rw [Dash.count_filterMap_eq_countP]

theorem mem_scans_by_state_state {recs : List NRow} {p : String × Nat}
    (hp : p ∈ scans_by_state recs) : ∃ r ∈ recs, r.state = some p.1 := by
  unfold scans_by_state at hp
  rw [(Dash.sortDescBy_perm _ _).mem_iff, Dash.mem_groupbySize_iff] at hp
  have hk : p.1 ∈ state_values recs :=
    Dash.mem_keys_countsOf.mp (List.mem_map_of_mem Prod.fst hp)
  exact List.mem_filterMap.mp hk

theorem mem_repeat_users_by_state_state {recs : List NRow} {p : String × Nat}
    (hp : p ∈ repeat_users_by_state recs) : ∃ r ∈ recs, r.state = some p.1 := by
  unfold repeat_users_by_state at hp
  rw [Dash.mem_groupbySize_iff] at hp
  have hk := Dash.mem_keys_countsOf.mp (List.mem_map_of_mem Prod.fst hp)
  rcases List.mem_map.mp hk with ⟨pair, hpair, hfst⟩
  rw [Dash.mem_dedupFirst] at hpair
  rcases List.mem_filterMap.mp hpair with ⟨r, hr, hf⟩
  refine ⟨r, List.mem_of_mem_filter hr, ?_⟩
  cases hs : r.state with
  | none => rw [hs] at hf; simp at hf
  | some s0 =>
    cases hu : r.userId with
    | none => rw [hs, hu] at hf; simp at hf
    | some u0 =>
      rw [hs, hu] at hf
      simp only [Option.some_inj] at hf
      rw [← hfst, ← hf]

end Rs2Dr

namespace ScanRecords

theorem state_summary_row_facts {recs : List NRow} {row : StateRow}
    (hrow : row ∈ state_summary recs) :
    (∃ r ∈ recs, r.state = some row.state)
    ∧ row.total = recs.countP (fun r => r.state = some row.state) := by
  unfold state_summary at hrow
  rcases List.mem_map.mp hrow with ⟨p, hp, he⟩
  have hstate : row.state = p.1 := by rw [← he]
  have htotal : row.total = p.2 := by rw [← he]
  have hkey : p.1 ∈ state_values recs := by
    have := mem_state_counts_iff.mp hp
    exact Dash.mem_keys_countsOf.mp (List.mem_map_of_mem Prod.fst this)
  constructor
  · rw [hstate]
    exact List.mem_filterMap.mp hkey
  · rw [htotal, hstate, state_counts_snd_eq hp]
    unfold state_values
    rw [Dash.count_filterMap_eq_countP]

end ScanRecords

/-- C8: records whose normalized state is null are excluded from every
per-state rollup (their rows are counted in no state bucket and no
`unknown` bucket exists: every emitted key comes from a record with that
non-null state, and each state's count counts exactly the records carrying
that state).  Concretely, `" ca "` normalizes to `"CA"` and contributes,
while `"california"` normalizes to null and contributes to no rollup. -/
theorem spec_C8_null_state_excluded :
    (∀ (recs : List Rs2Dr.NRow) (s : String),
        Dash.countVal (Rs2Dr.summarize recs).scansByState s =
          recs.countP (fun r => r.state = some s))
    ∧ (∀ (recs : List Rs2Dr.NRow) (p : String × Nat),
        p ∈ (Rs2Dr.summarize recs).scansByState →
          ∃ r ∈ recs, r.state = some p.1)
    ∧ (∀ (recs : List Rs2Dr.NRow) (p : String × Nat),
        p ∈ (Rs2Dr.summarize recs).repeatUsersByState →
          ∃ r ∈ recs, r.state = some p.1)
    ∧ (∀ (recs : List ScanRecords.NRow) (row : ScanRecords.StateRow),
        row ∈ (ScanRecords.summarize recs).stateSummary →
          (∃ r ∈ recs, r.state = some row.state)
          ∧ row.total = recs.countP (fun r => r.state = some row.state))
    ∧ Dash.normalizeState (some " ca ") = some "CA"
    ∧ Dash.normalizeState (some "california") = none
    ∧ (Rs2Dr.summarize
        (Rs2Dr.load_data [Rs2Dr.mkRow (some "california") none none none])).scansByState = []
    ∧ (Rs2Dr.summarize
        (Rs2Dr.load_data [Rs2Dr.mkRow (some " ca ") none none none])).scansByState =
        [("CA", 1)] := by
  refine ⟨?_, ?_, ?_, ?_, by decide, by decide, by decide, by decide⟩
  · intro recs s
    exact Rs2Dr.countVal_scans_by_state recs s
  · intro recs p hp
    exact Rs2Dr.mem_scans_by_state_state hp
  · intro recs p hp
    exact Rs2Dr.mem_repeat_users_by_state_state hp
  · intro recs row hrow
    exact ScanRecords.state_summary_row_facts hrow

/-- Witness for C8 at concrete inputs: the membership hypotheses are
discharged on a one-row scan_records frame with state `"CA"` and a one-row
rs2 frame with state `" ca "`. -/
theorem spec_C8_witness :
    (∃ r ∈ Rs2Dr.load_data [Rs2Dr.mkRow (some " ca ") none none none],
        r.state = some "CA")
    ∧ (∃ r ∈ ScanRecords.load_data
          [ScanRecords.mkRow (some "a") (some "e") (some "v") (some "CA")],
        r.state = some "CA") := by
  have h := spec_C8_null_state_excluded
  constructor
  · exact h.2.1 _ ("CA", 1) (by decide)
  · exact (h.2.2.2.1 (ScanRecords.load_data
      [ScanRecords.mkRow (some "a") (some "e") (some "v") (some "CA")])
      _ (List.mem_cons_self _ _)).1

namespace Dash

theorem dropna_map_some (l : List String) : dropna (l.map some) = l := by
  induction l with
  | nil => rfl
  | cons x t ih =>
    simp only [List.map_cons, dropna, List.filterMap_cons] at ih ⊢
    rw [ih]
    rfl

theorem length_valueCounts {α : Type _} [DecidableEq α] (v : List α) :
    (valueCounts v).length = (dedupFirst v).length := by
  unfold valueCounts
  rw [(sortDescBy_perm _ _).length_eq, ← keys_countsOf_eq_dedupFirst,
    List.length_map]

theorem length_dedupFirst_eq_card {α : Type _} [DecidableEq α] (l : List α) :
    (dedupFirst l).length = l.toFinset.card := by
  have hset : (dedupFirst l).toFinset = l.toFinset := by
    ext x
    simp [List.mem_toFinset, mem_dedupFirst]
  rw [← hset, List.toFinset_card_of_nodup (dedupFirst_nodup l)]

end Dash

namespace ScanRecords

theorem vins_eq (rows : List Row) :
    Dash.dropna (vin_cells (load_data rows)) =
      rows.map (fun r => Dash.strip (Dash.pyStr r.vin)) := by
  unfold vin_cells load_data
  rw [List.map_map]
  have h : ((fun r : NRow => some r.vin) ∘ loadRow) =
      (some ∘ fun r : Row => Dash.strip (Dash.pyStr r.vin)) := rfl
  rw [h, ← List.map_map]
  exact Dash.dropna_map_some _

end ScanRecords

/-- C4 counterexample: in `scan_records_dashboard.py` a missing AccountId is
rendered as the non-empty string `"nan"` by `astype(str)`, so the row's key
is the literal `"nan"` and not its Email, contradicting the claim that a row
with missing AccountId gets its Email as the key. -/
theorem spec_C4_counterexample :
    (ScanRecords.mkRow none (some "user@example.com") (some "v") none).accountId = none
    ∧ (ScanRecords.loadRow
        (ScanRecords.mkRow none (some "user@example.com") (some "v") none)).email =
        "user@example.com"
    ∧ (ScanRecords.loadRow
        (ScanRecords.mkRow none (some "user@example.com") (some "v") none)).accountKey =
        "nan"
    ∧ (ScanRecords.loadRow
        (ScanRecords.mkRow none (some "user@example.com") (some "v") none)).accountKey ≠
        "user@example.com" := by
  refine ⟨rfl, by decide, by decide, by decide⟩

/-- C4 (amended): in scan_records the key is the trimmed AccountId whenever
that trim is non-empty — including the literal `"nan"` produced from a
missing AccountId — and falls back to the trimmed Email only when the
trimmed AccountId is the empty string; in rs2 the key is the trimmed
AccountId alone, nulled when it is empty or the missing-value rendering
`"nan"`. -/
theorem spec_C4_user_key (r : ScanRecords.Row) (d : Rs2Dr.Row) :
    ((ScanRecords.loadRow r).accountKey =
      if Dash.strip (Dash.pyStr r.accountId) ≠ "" then
        Dash.strip (Dash.pyStr r.accountId)
      else Dash.strip (Dash.pyStr r.email))
    ∧ (r.accountId = none → (ScanRecords.loadRow r).accountKey = "nan")
    ∧ ((Rs2Dr.loadRow d).userId = Rs2Dr.normUserId d.accountId)
    ∧ (d.accountId = none → (Rs2Dr.loadRow d).userId = none)
    ∧ (Dash.strip (Dash.pyStr d.accountId) = "" → (Rs2Dr.loadRow d).userId = none) := by
  refine ⟨rfl, ?_, rfl, ?_, ?_⟩
  · intro h
    obtain ⟨aid, em, vin, st, cr⟩ := r
    simp only at h
    subst h
    rfl
  · intro h
    obtain ⟨cr, st, yr, mi, ab, sr, aid, mk, md, vin, usb, dtc, mp, ap, sp, mpc, ppc⟩ := d
    simp only at h
    subst h
    rfl
  · intro h
    show Rs2Dr.normUserId d.accountId = none
    simp [Rs2Dr.normUserId, h]

/-- Witness for C4 (amended) at concrete rows: a scan_records row with
missing AccountId gets key `"nan"`; rs2 rows with a missing or blank
AccountId get a null UserId. -/
theorem spec_C4_witness :
    (ScanRecords.loadRow
        (ScanRecords.mkRow none (some "e@x") none none)).accountKey = "nan"
    ∧ (Rs2Dr.loadRow (Rs2Dr.mkRow none none none none)).userId = none
    ∧ (Rs2Dr.loadRow (Rs2Dr.mkRow none (some "  ") none none)).userId = none := by
  have h := spec_C4_user_key (ScanRecords.mkRow none (some "e@x") none none)
    (Rs2Dr.mkRow none none none none)
  have h2 := spec_C4_user_key (ScanRecords.mkRow none (some "e@x") none none)
    (Rs2Dr.mkRow none (some "  ") none none)
  exact ⟨h.2.1 rfl, h.2.2.2.1 rfl, h2.2.2.2.2 (by decide)⟩

theorem Dash.strip_pyStr_none : Dash.strip (Dash.pyStr none) = "nan" := by decide

theorem Dash.strip_pyStr_some (v : String) :
    Dash.strip (Dash.pyStr (some v)) = Dash.strip v := rfl

/-- C10 counterexample: a present VIN cell `" nan "` trims to the literal
string `"nan"` and collides with the rendering of missing VINs, so for this
input with one missing VIN the `Unique VINs` metric is not one more than
the number of distinct present VINs: both counts are 1. -/
theorem spec_C10_counterexample :
    ([ScanRecords.mkRow (some "a") (some "e") (some " nan ") none,
      ScanRecords.mkRow (some "b") (some "f") none none].countP
        (fun r => r.vin = none)) = 1
    ∧ (ScanRecords.summarize (ScanRecords.load_data
        [ScanRecords.mkRow (some "a") (some "e") (some " nan ") none,
         ScanRecords.mkRow (some "b") (some "f") none none])).uniqueVins = 1
    ∧ (Dash.dedupFirst
        (([ScanRecords.mkRow (some "a") (some "e") (some " nan ") none,
           ScanRecords.mkRow (some "b") (some "f") none none].filterMap
            (·.vin)).map Dash.strip)).length = 1
    ∧ (ScanRecords.summarize (ScanRecords.load_data
        [ScanRecords.mkRow (some "a") (some "e") (some " nan ") none,
         ScanRecords.mkRow (some "b") (some "f") none none])).uniqueVins ≠
      (Dash.dedupFirst
        (([ScanRecords.mkRow (some "a") (some "e") (some " nan ") none,
           ScanRecords.mkRow (some "b") (some "f") none none].filterMap
            (·.vin)).map Dash.strip)).length + 1 := by
  refine ⟨by decide, by decide, by decide, by decide⟩

/-- C10 (amended): in scan_records every missing VIN becomes the literal
string `"nan"`, and the subsequent `dropna` on the VIN column removes no
rows; provided no present VIN trims to the literal `"nan"`, an input with at
least one missing VIN has `Unique VINs` equal to the distinct present-VIN
count plus one (the shared `"nan"`), and two or more missing VINs make
`"nan"` a VIN counted as scanned multiple times. -/
theorem spec_C10_missing_vins (rows : List ScanRecords.Row) :
    (∀ r ∈ rows, r.vin = none → (ScanRecords.loadRow r).vin = "nan")
    ∧ (Dash.dropna (ScanRecords.vin_cells (ScanRecords.load_data rows))).length =
        rows.length
    ∧ ((∃ r ∈ rows, r.vin = none) →
        (∀ r ∈ rows, ∀ v, r.vin = some v → Dash.strip v ≠ "nan") →
        (ScanRecords.summarize (ScanRecords.load_data rows)).uniqueVins =
          (Dash.dedupFirst ((rows.filterMap (·.vin)).map Dash.strip)).length + 1)
    ∧ (2 ≤ rows.countP (fun r => r.vin = none) →
        "nan" ∈ (((ScanRecords.vin_counts (ScanRecords.load_data rows)).filter
          (fun p => 1 < p.2)).map Prod.fst)) := by
  refine ⟨?_, ?_, ?_, ?_⟩
  · intro r _ h
    show Dash.strip (Dash.pyStr r.vin) = "nan"
    rw [h, Dash.strip_pyStr_none]
  · rw [ScanRecords.vins_eq, List.length_map]
  · intro hmiss hpres
    show (ScanRecords.vin_counts (ScanRecords.load_data rows)).length = _
    unfold ScanRecords.vin_counts
    rw [ScanRecords.vins_eq, Dash.length_valueCounts,
      Dash.length_dedupFirst_eq_card, Dash.length_dedupFirst_eq_card]
    have hset : (rows.map (fun r => Dash.strip (Dash.pyStr r.vin))).toFinset =
        insert "nan" ((rows.filterMap (·.vin)).map Dash.strip).toFinset := by
      ext x
      simp only [List.mem_toFinset, List.mem_map, Finset.mem_insert,
        List.mem_filterMap]
      constructor
      · rintro ⟨r, hr, he⟩
        cases hv : r.vin with
        | none =>
          left
          rw [← he, hv, Dash.strip_pyStr_none]
        | some v =>
          right
          exact ⟨v, ⟨r, hr, hv⟩, by rw [← he, hv, Dash.strip_pyStr_some]⟩
      · rintro (hx | ⟨v, ⟨r, hr, hv⟩, he⟩)
        · rcases hmiss with ⟨r, hr, hv⟩
          refine ⟨r, hr, ?_⟩
          rw [hv, hx, Dash.strip_pyStr_none]
        · refine ⟨r, hr, ?_⟩
          rw [hv, Dash.strip_pyStr_some]
          exact he
    rw [hset]
    rw [Finset.card_insert_of_not_mem]
    intro hmem
    rw [List.mem_toFinset] at hmem
    rcases List.mem_map.mp hmem with ⟨v, hv, he⟩
    rcases List.mem_filterMap.mp hv with ⟨r, hr, hrv⟩
    exact hpres r hr v hrv he
  · intro h2
    have hV := ScanRecords.vins_eq rows
    have hcount : 2 ≤ (rows.map (fun r => Dash.strip (Dash.pyStr r.vin))).count "nan" := by
      rw [Dash.count_map_eq_countP]
      calc 2 ≤ rows.countP (fun r => r.vin = none) := h2
        _ ≤ rows.countP (fun r => Dash.strip (Dash.pyStr r.vin) = "nan") := by
            apply List.countP_mono_left
            intro r _ hnone
            rw [decide_eq_true_eq] at hnone
            rw [hnone]
            exact decide_eq_true rfl
    have hmem : "nan" ∈ rows.map (fun r => Dash.strip (Dash.pyStr r.vin)) :=
      List.count_pos_iff.mp (by omega)
    have hkey := Dash.mem_keys_countsOf.mpr hmem
    rcases List.mem_map.mp hkey with ⟨p, hp, hfst⟩
    have hcnt := Dash.snd_eq_count_of_mem_countsOf hp
    have hpmem : p ∈ ScanRecords.vin_counts (ScanRecords.load_data rows) := by
      unfold ScanRecords.vin_counts Dash.valueCounts
      rw [(Dash.sortDescBy_perm _ _).mem_iff, hV]
      exact hp
    apply List.mem_map.mpr
    refine ⟨p, List.mem_filter.mpr ⟨hpmem, ?_⟩, hfst⟩
    rw [decide_eq_true_eq, hcnt, hfst]
    omega

/-- Witness for C10 (amended): a frame with one present VIN `"V1"` and two
missing VINs has 2 unique VINs (the `"V1"` plus the shared `"nan"`), and
`"nan"` is listed among the VINs scanned multiple times. -/
theorem spec_C10_witness :
    (ScanRecords.summarize (ScanRecords.load_data
        [ScanRecords.mkRow (some "a") (some "e") (some "V1") none,
         ScanRecords.mkRow (some "b") (some "f") none none,
         ScanRecords.mkRow (some "c") (some "g") none none])).uniqueVins =
      (Dash.dedupFirst
        (([ScanRecords.mkRow (some "a") (some "e") (some "V1") none,
           ScanRecords.mkRow (some "b") (some "f") none none,
           ScanRecords.mkRow (some "c") (some "g") none none].filterMap
            (·.vin)).map Dash.strip)).length + 1
    ∧ "nan" ∈ (((ScanRecords.vin_counts (ScanRecords.load_data
        [ScanRecords.mkRow (some "a") (some "e") (some "V1") none,
         ScanRecords.mkRow (some "b") (some "f") none none,
         ScanRecords.mkRow (some "c") (some "g") none none])).filter
          (fun p => 1 < p.2)).map Prod.fst) := by
  have h := spec_C10_missing_vins
    [ScanRecords.mkRow (some "a") (some "e") (some "V1") none,
     ScanRecords.mkRow (some "b") (some "f") none none,
     ScanRecords.mkRow (some "c") (some "g") none none]
  exact ⟨h.2.2.1 (by decide) (by decide), h.2.2.2 (by decide)⟩

namespace ScanRecords

theorem state_summary_shares {recs : List NRow} {row : StateRow}
    (hrow : row ∈ state_summary recs) :
    ((0 ≤ row.repeatScanShare ∧ row.repeatScanShare ≤ 1)
      ∧ (0 ≤ row.scanShare ∧ row.scanShare ≤ 1)) := by
  unfold state_summary at hrow
  rcases List.mem_map.mp hrow with ⟨p, hp, he⟩
  subst he
  constructor
  · exact Dash.ratio01 _ _ (repeats_le_state_total hp)
  · by_cases h0 : total_scans recs = 0
    · have hp2 : p.2 = 0 := by
        have := state_total_le_total hp
        omega
      simp only [h0, if_pos, hp2]
      norm_num
    · simp only [h0, if_neg, ite_false]
      exact Dash.ratio01 _ _ (state_total_le_total hp)

theorem repeat_user_state_shares {recs : List NRow} {row : RepeatStateRow}
    (hrow : row ∈ repeat_user_state recs) :
    ((0 ≤ row.shareAllRepeat ∧ row.shareAllRepeat ≤ 1)
      ∧ (0 ≤ row.shareInState ∧ row.shareInState ≤ 1)) := by
  unfold repeat_user_state at hrow
  rcases List.mem_map.mp hrow with ⟨p, hp, he⟩
  subst he
  constructor
  · by_cases h0 : repeat_users recs = 0
    · have hru : Dash.countVal (repeat_users_by_state recs) p.1 = 0 := by
        have := ru_le_repeat_users recs p.1
        omega
      simp only [h0, if_pos, hru]
      norm_num
    · simp only [h0, if_neg, ite_false]
      exact Dash.ratio01 _ _ (ru_le_repeat_users recs p.1)
  · by_cases h0 : Dash.countVal (unique_users_by_state recs) p.1 = 0
    · simp only [h0, if_pos]
      norm_num
    · simp only [h0, if_neg, ite_false]
      exact Dash.ratio01 _ _ (ru_le_uu recs p.1)

end ScanRecords

/-- C1: every ratio-valued metric produced by the two `summarize` pipelines
(repeat-user share, repeat-user scan share, per-state repeat-scan share,
per-state scan share, per-state repeat-user shares) lies in [0, 1], and a
zero denominator yields exactly 0 — never an exception, NaN, or undefined
value. -/
theorem spec_C1_ratio_bounds
    (drRows : List Rs2Dr.Row) (scRows : List ScanRecords.Row) :
    (0 ≤ (Rs2Dr.summarize (Rs2Dr.load_data drRows)).repeatUserShare
      ∧ (Rs2Dr.summarize (Rs2Dr.load_data drRows)).repeatUserShare ≤ 1)
    ∧ ((Rs2Dr.summarize (Rs2Dr.load_data drRows)).totalScannedUsers = 0 →
        (Rs2Dr.summarize (Rs2Dr.load_data drRows)).repeatUserShare = 0)
    ∧ (0 ≤ (ScanRecords.summarize (ScanRecords.load_data scRows)).repeatUserScanShare
      ∧ (ScanRecords.summarize (ScanRecords.load_data scRows)).repeatUserScanShare ≤ 1)
    ∧ ((ScanRecords.summarize (ScanRecords.load_data scRows)).totalScans = 0 →
        (ScanRecords.summarize (ScanRecords.load_data scRows)).repeatUserScanShare = 0)
    ∧ (0 ≤ (ScanRecords.summarize (ScanRecords.load_data scRows)).repeatUserShare
      ∧ (ScanRecords.summarize (ScanRecords.load_data scRows)).repeatUserShare ≤ 1)
    ∧ ((ScanRecords.summarize (ScanRecords.load_data scRows)).uniqueUsers = 0 →
        (ScanRecords.summarize (ScanRecords.load_data scRows)).repeatUserShare = 0)
    ∧ (∀ row ∈ (ScanRecords.summarize (ScanRecords.load_data scRows)).stateSummary,
        (0 ≤ row.repeatScanShare ∧ row.repeatScanShare ≤ 1)
        ∧ (0 ≤ row.scanShare ∧ row.scanShare ≤ 1))
    ∧ (∀ row ∈ (ScanRecords.summarize (ScanRecords.load_data scRows)).repeatUserState,
        (0 ≤ row.shareAllRepeat ∧ row.shareAllRepeat ≤ 1)
        ∧ (0 ≤ row.shareInState ∧ row.shareInState ≤ 1)) := by
  refine ⟨?_, ?_, ?_, ?_, ?_, ?_, ?_, ?_⟩
  · show 0 ≤ Rs2Dr.repeat_user_share _ ∧ Rs2Dr.repeat_user_share _ ≤ 1
    unfold Rs2Dr.repeat_user_share
    by_cases h0 : Rs2Dr.total_scanned_users (Rs2Dr.load_data drRows) = 0
    · rw [if_pos h0]; norm_num
    · rw [if_neg h0]
      exact Dash.ratio01 _ _ (Rs2Dr.repeat_le_users _)
  · intro h0
    have h0x : Rs2Dr.total_scanned_users (Rs2Dr.load_data drRows) = 0 := h0
    show Rs2Dr.repeat_user_share _ = 0
    unfold Rs2Dr.repeat_user_share
    rw [if_pos h0x]
  · show 0 ≤ ScanRecords.repeat_user_scan_share _ ∧
      ScanRecords.repeat_user_scan_share _ ≤ 1
    unfold ScanRecords.repeat_user_scan_share
    by_cases h0 : ScanRecords.total_scans (ScanRecords.load_data scRows) = 0
    · rw [if_pos h0]; norm_num
    · rw [if_neg h0]
      exact Dash.ratio01 _ _ (ScanRecords.repeat_user_scans_le _)
  · intro h0
    have h0x : ScanRecords.total_scans (ScanRecords.load_data scRows) = 0 := h0
    show ScanRecords.repeat_user_scan_share _ = 0
    unfold ScanRecords.repeat_user_scan_share
    rw [if_pos h0x]
  · show 0 ≤ ScanRecords.repeat_user_share _ ∧ ScanRecords.repeat_user_share _ ≤ 1
    unfold ScanRecords.repeat_user_share
    by_cases h0 : ScanRecords.unique_users (ScanRecords.load_data scRows) = 0
    · rw [if_pos h0]; norm_num
    · rw [if_neg h0]
      exact Dash.ratio01 _ _ (ScanRecords.repeat_users_le _)
  · intro h0
    have h0x : ScanRecords.unique_users (ScanRecords.load_data scRows) = 0 := h0
    show ScanRecords.repeat_user_share _ = 0
    unfold ScanRecords.repeat_user_share
    rw [if_pos h0x]
  · intro row hrow
    exact ScanRecords.state_summary_shares hrow
  · intro row hrow
    exact ScanRecords.repeat_user_state_shares hrow

/-- Witness for C1 at concrete inputs: on empty frames every guarded share
is exactly 0, and on a two-row frame with state `"CA"` the emitted state
rows have all four share ratios inside [0, 1]. -/
theorem spec_C1_witness :
    ((Rs2Dr.summarize (Rs2Dr.load_data [])).repeatUserShare = 0)
    ∧ ((ScanRecords.summarize (ScanRecords.load_data [])).repeatUserScanShare = 0)
    ∧ ((ScanRecords.summarize (ScanRecords.load_data [])).repeatUserShare = 0)
    ∧ (∃ row ∈ (ScanRecords.summarize (ScanRecords.load_data
          [ScanRecords.mkRow (some "a") (some "e") (some "v") (some "CA"),
           ScanRecords.mkRow (some "a") (some "e") (some "v") (some "CA")])).stateSummary,
        (0 ≤ row.repeatScanShare ∧ row.repeatScanShare ≤ 1)
        ∧ (0 ≤ row.scanShare ∧ row.scanShare ≤ 1))
    ∧ (∃ row ∈ (ScanRecords.summarize (ScanRecords.load_data
          [ScanRecords.mkRow (some "a") (some "e") (some "v") (some "CA"),
           ScanRecords.mkRow (some "a") (some "e") (some "v") (some "CA")])).repeatUserState,
        (0 ≤ row.shareAllRepeat ∧ row.shareAllRepeat ≤ 1)
        ∧ (0 ≤ row.shareInState ∧ row.shareInState ≤ 1)) := by
  have h0 := spec_C1_ratio_bounds [] []
  have h1 := spec_C1_ratio_bounds []
    [ScanRecords.mkRow (some "a") (some "e") (some "v") (some "CA"),
     ScanRecords.mkRow (some "a") (some "e") (some "v") (some "CA")]
  refine ⟨h0.2.1 rfl, h0.2.2.2.1 rfl, h0.2.2.2.2.2.1 rfl, ?_, ?_⟩
  · exact ⟨_, List.mem_cons_self _ _, h1.2.2.2.2.2.2.1 _ (List.mem_cons_self _ _)⟩
  · exact ⟨_, List.mem_cons_self _ _, h1.2.2.2.2.2.2.2 _ (List.mem_cons_self _ _)⟩

namespace Rs2Dr

/-- The earliest occupied hourly bucket (`hourly["Hour"].min()`); 0 when no
timestamp parsed. -/
def minBucket (recs : List NRow) : Int :=
  match hour_buckets recs with
  | [] => 0
  | b :: t => t.foldl min b

/-- The latest occupied hourly bucket (`max_time = hourly["Hour"].max()`);
0 when no timestamp parsed. -/
def maxBucket (recs : List NRow) : Int :=
  match hour_buckets recs with
  | [] => 0
  | b :: t => t.foldl max b

theorem minBucket_le_maxBucket {recs : List NRow}
    (hne : hour_buckets recs ≠ []) : minBucket recs ≤ maxBucket recs := by
  unfold minBucket maxBucket
  cases hb : hour_buckets recs with
  | nil => exact absurd hb hne
  | cons b t =>
    exact le_trans (Dash.foldl_min_le_init t b) (Dash.init_le_foldl_max t b)

theorem hourly_eq (recs : List NRow) (hne : hour_buckets recs ≠ []) :
    hourly recs =
      Dash.resampleFrom (fun x => (hour_buckets recs).count x)
        (max (minBucket recs) (maxBucket recs - 23))
        (min ((maxBucket recs - minBucket recs + 1).toNat) 24) := by
  have hlo := minBucket_le_maxBucket hne
  rcases hb : hour_buckets recs with _ | ⟨b, t⟩
  · exact absurd hb hne
  · have hstep : hourly recs =
        (Dash.resampleFrom (fun x => (b :: t).count x) (t.foldl min b)
          ((t.foldl max b - t.foldl min b + 1).toNat)).filter
          (fun p => t.foldl max b - 23 ≤ p.1) := by
      unfold hourly
      rw [hb]
    have hmin : minBucket recs = t.foldl min b := by
      unfold minBucket
      rw [hb]
    have hmax : maxBucket recs = t.foldl max b := by
      unfold maxBucket
      rw [hb]
    rw [hstep, Dash.resampleFrom_filter_ge, hmin, hmax]
    rw [hmin, hmax] at hlo
    congr 1 <;> omega

theorem dedup_buckets_le_span (recs : List NRow)
    (hne : hour_buckets recs ≠ []) :
    (Dash.dedupFirst (hour_buckets recs)).length ≤
      (maxBucket recs - minBucket recs + 1).toNat := by
  have hlo := minBucket_le_maxBucket hne
  have hsub : Dash.dedupFirst (hour_buckets recs) ⊆
      (Dash.resampleFrom (fun x => (hour_buckets recs).count x)
        (minBucket recs)
        ((maxBucket recs - minBucket recs + 1).toNat)).map Prod.fst := by
    intro x hx
    rw [Dash.mem_dedupFirst] at hx
    have hxb : minBucket recs ≤ x ∧ x ≤ maxBucket recs := by
      rcases hb : hour_buckets recs with _ | ⟨b, t⟩
      · rw [hb] at hx; cases hx
      · rw [hb] at hx
        have hmin : minBucket recs = t.foldl min b := by
          unfold minBucket; rw [hb]
        have hmax : maxBucket recs = t.foldl max b := by
          unfold maxBucket; rw [hb]
        rw [hmin, hmax]
        rcases List.mem_cons.mp hx with hxx | hxt
        · subst hxx
          exact ⟨Dash.foldl_min_le_init t x, Dash.init_le_foldl_max t x⟩
        · exact ⟨Dash.foldl_min_le_mem b hxt, Dash.mem_le_foldl_max b hxt⟩
    apply Dash.mem_fst_resampleFrom
    · exact hxb.1
    · omega
  have hle := (List.subperm_of_subset (Dash.dedupFirst_nodup _) hsub).length_le
  rw [List.length_map, Dash.resampleFrom_length] at hle
  exact hle

end Rs2Dr

/-- C3: whenever at least one timestamp parses, the rs2 hourly series is a
contiguous run of hourly buckets ending at the latest observed bucket, of
length `min(span, 24) ≤ 24` where `span` is the distance from the earliest
to the latest occupied bucket (anchored on the data's maximum timestamp,
not wall-clock time); an input covering at least 40 distinct hourly buckets
yields exactly the latest 24 buckets, inclusive of the maximum bucket. -/
theorem spec_C3_hourly_window (rows : List Rs2Dr.Row)
    (hne : Rs2Dr.hour_buckets (Rs2Dr.load_data rows) ≠ []) :
    ((Rs2Dr.summarize (Rs2Dr.load_data rows)).hourly.length =
        min ((Rs2Dr.maxBucket (Rs2Dr.load_data rows) -
          Rs2Dr.minBucket (Rs2Dr.load_data rows) + 1).toNat) 24)
    ∧ (Rs2Dr.summarize (Rs2Dr.load_data rows)).hourly.length ≤ 24
    ∧ ((Rs2Dr.summarize (Rs2Dr.load_data rows)).hourly.getLast? =
        some (Rs2Dr.maxBucket (Rs2Dr.load_data rows),
          (Rs2Dr.hour_buckets (Rs2Dr.load_data rows)).count
            (Rs2Dr.maxBucket (Rs2Dr.load_data rows))))
    ∧ List.Chain' (fun p q => q.1 = p.1 + 1)
        (Rs2Dr.summarize (Rs2Dr.load_data rows)).hourly
    ∧ (40 ≤ (Dash.dedupFirst (Rs2Dr.hour_buckets (Rs2Dr.load_data rows))).length →
        (Rs2Dr.summarize (Rs2Dr.load_data rows)).hourly.length = 24) := by
  have hlo := Rs2Dr.minBucket_le_maxBucket hne
  have heq : (Rs2Dr.summarize (Rs2Dr.load_data rows)).hourly =
      Dash.resampleFrom
        (fun x => (Rs2Dr.hour_buckets (Rs2Dr.load_data rows)).count x)
        (max (Rs2Dr.minBucket (Rs2Dr.load_data rows))
          (Rs2Dr.maxBucket (Rs2Dr.load_data rows) - 23))
        (min ((Rs2Dr.maxBucket (Rs2Dr.load_data rows) -
          Rs2Dr.minBucket (Rs2Dr.load_data rows) + 1).toNat) 24) :=
    Rs2Dr.hourly_eq (Rs2Dr.load_data rows) hne
  have hlen : (Rs2Dr.summarize (Rs2Dr.load_data rows)).hourly.length =
      min ((Rs2Dr.maxBucket (Rs2Dr.load_data rows) -
        Rs2Dr.minBucket (Rs2Dr.load_data rows) + 1).toNat) 24 := by
    rw [heq, Dash.resampleFrom_length]
  have hnz : min ((Rs2Dr.maxBucket (Rs2Dr.load_data rows) -
      Rs2Dr.minBucket (Rs2Dr.load_data rows) + 1).toNat) 24 ≠ 0 := by
    omega
  refine ⟨hlen, by omega, ?_, ?_, ?_⟩
  · rw [heq, Dash.resampleFrom_getLast _ _ _ hnz]
    have harg : max (Rs2Dr.minBucket (Rs2Dr.load_data rows))
          (Rs2Dr.maxBucket (Rs2Dr.load_data rows) - 23) +
        ((min ((Rs2Dr.maxBucket (Rs2Dr.load_data rows) -
          Rs2Dr.minBucket (Rs2Dr.load_data rows) + 1).toNat) 24 : Nat) : Int) - 1 =
        Rs2Dr.maxBucket (Rs2Dr.load_data rows) := by
      omega
    rw [harg]
  · rw [heq]
    exact Dash.resampleFrom_chain _ _ _
  · intro h40
    have hspan := Rs2Dr.dedup_buckets_le_span (Rs2Dr.load_data rows) hne
    omega

/-- A 40-bucket example input: one scan at each of the 40 consecutive hours
0, 1, …, 39 (timestamps in seconds). -/
def hourlyExampleRows : List Rs2Dr.Row :=
  (List.range 40).map (fun i => Rs2Dr.mkRow none none none (some (3600 * (i : Int))))

/-- Witness for C3: the 40-bucket example yields exactly 24 hourly buckets,
ending at the maximum bucket 39 (with its count 1). -/
theorem spec_C3_witness :
    (Rs2Dr.summarize (Rs2Dr.load_data hourlyExampleRows)).hourly.length = 24
    ∧ (Rs2Dr.summarize (Rs2Dr.load_data hourlyExampleRows)).hourly.getLast? =
        some (39, 1) := by
  have h := spec_C3_hourly_window hourlyExampleRows (by decide)
  have h39 : Rs2Dr.maxBucket (Rs2Dr.load_data hourlyExampleRows) = 39 := by decide
  have hcnt : (Rs2Dr.hour_buckets (Rs2Dr.load_data hourlyExampleRows)).count 39 = 1 := by
    decide
  constructor
  · exact h.2.2.2.2 (by decide)
  · have hg := h.2.2.1
    rw [h39] at hg
    rw [hcnt] at hg
    exact hg

namespace Dash

theorem take_sortDescBy_sorted {α : Type _} [DecidableEq α] (f : α → Nat)
    (l : List α) (n : Nat) :
    ((sortDescBy f l).take n).Pairwise (fun a b => f b ≤ f a) :=
  List.Pairwise.sublist (List.take_sublist n _) (sortDescBy_sorted f l)

theorem valueCounts_take_ties {α : Type _} [DecidableEq α] {v : List α} {n : Nat}
    {a b : α × Nat} (h : List.Sublist [a, b] ((valueCounts v).take n))
    (htie : a.2 = b.2) : List.Sublist [a, b] (countsOf v) := by
  unfold valueCounts at h
  exact pair_sublist_of_sortDescBy (countsOf_nodup v)
    (h.trans (List.take_sublist n _)) htie

theorem sorted_groupby_tie_lt {v : List String} {a b : String × Nat}
    (h : List.Sublist [a, b] (sortDescBy Prod.snd (groupbySize v)))
    (htie : a.2 = b.2) : strLe a.1 b.1 = true ∧ a.1 ≠ b.1 := by
  have hn : (groupbySize v).Nodup := (keys_groupbySize_nodup v).of_map
  have h3 := pair_sublist_of_sortDescBy hn h htie
  have hle := rel_of_pair_sublist h3 (keys_groupbySize_sorted v)
  have hmap := h3.map Prod.fst
  rw [List.map_cons, List.map_cons, List.map_nil] at hmap
  have hne : a.1 ≠ b.1 := by
    intro he
    rw [he] at hmap
    exact not_pair_self_sublist (keys_groupbySize_nodup v) hmap
  exact ⟨hle, hne⟩

end Dash

namespace Rs2Dr

theorem top_states_tie_lt {recs : List NRow} {a b : String × Nat}
    (h : List.Sublist [a, b] (top_states recs)) (htie : a.2 = b.2) :
    Dash.strLe a.1 b.1 = true ∧ a.1 ≠ b.1 := by
  unfold top_states scans_by_state at h
  exact Dash.sorted_groupby_tie_lt (h.trans (List.take_sublist 10 _)) htie

theorem mil_dtc_tie {recs : List NRow} {a b : String × Nat × List (String × Nat)}
    (h : List.Sublist [a, b] (top_mil_dtc recs)) (htie : a.2.1 = b.2.1) :
    List.Sublist [(a.1, a.2.1), (b.1, b.2.1)] (Dash.countsOf (dtc_values recs)) := by
  unfold top_mil_dtc at h
  rcases List.sublist_map_iff.mp h with ⟨l', hl', hmap⟩
  cases l' with
  | nil => simp at hmap
  | cons x t =>
    cases t with
    | nil => simp at hmap
    | cons y t2 =>
      cases t2 with
      | cons z t3 => simp at hmap
      | nil =>
        rw [List.map_cons, List.map_cons, List.map_nil] at hmap
        injection hmap with hax hrest
        injection hrest with hby
        have hx1 : (a.1, a.2.1) = x := by rw [hax]
        have hy1 : (b.1, b.2.1) = y := by rw [hby]
        have htie2 : x.2 = y.2 := by
          have h1 : a.2.1 = x.2 := by rw [hax]
          have h2 : b.2.1 = y.2 := by rw [hby]
          rw [← h1, ← h2, htie]
        rw [hx1, hy1]
        exact Dash.valueCounts_take_ties hl' htie2

end Rs2Dr

namespace ScanRecords

theorem state_counts_keys_nodup (recs : List NRow) :
    ((state_counts recs).map Prod.fst).Nodup := by
  unfold state_counts
  exact (((Dash.sortDescBy_perm _ _).map Prod.fst).nodup_iff).mpr
    (Dash.keys_groupbySize_nodup _)

theorem state_summary_nodup (recs : List NRow) : (state_summary recs).Nodup := by
  unfold state_summary
  apply List.Nodup.map_on
  · intro x hx y hy hxy
    have hfe : x.1 = y.1 := congrArg StateRow.state hxy
    exact Dash.eq_of_fst_eq_of_keys_nodup (state_counts_keys_nodup recs) hx hy hfe
  · exact (state_counts_keys_nodup recs).of_map

theorem scan_top_states_tie_lt {recs : List NRow} {a b : StateRow}
    (h : List.Sublist [a, b] (top_states recs)) (htie : a.total = b.total) :
    Dash.strLe a.state b.state = true ∧ a.state ≠ b.state := by
  unfold top_states at h
  have h2 := h.trans (List.take_sublist 10 _)
  have h3 := Dash.pair_sublist_of_sortDescBy (state_summary_nodup recs) h2 htie
  unfold state_summary at h3
  rcases List.sublist_map_iff.mp h3 with ⟨l', hl', hmap⟩
  cases l' with
  | nil => simp at hmap
  | cons x t =>
    cases t with
    | nil => simp at hmap
    | cons y t2 =>
      cases t2 with
      | cons z t3 => simp at hmap
      | nil =>
        rw [List.map_cons, List.map_cons, List.map_nil] at hmap
        injection hmap with hax hrest
        injection hrest with hby
        have hsx : a.state = x.1 := by rw [hax]
        have hsy : b.state = y.1 := by rw [hby]
        have htie2 : x.2 = y.2 := by
          have h1 : a.total = x.2 := by rw [hax]
          have h2 : b.total = y.2 := by rw [hby]
          rw [← h1, ← h2, htie]
        unfold state_counts at hl'
        rw [hsx, hsy]
        exact Dash.sorted_groupby_tie_lt hl' htie2

end ScanRecords

/-- A raw rs2 row carrying only a MIL DTC value. -/
def Rs2Dr.mkDtcRow (dtc : Dash.Cell) : Rs2Dr.Row :=
  { created := none, state := none, year := none, mileage := none,
    totalAbsCodes := none, totalSrsCodes := none, accountId := none,
    make := none, model := none, vin := none, usbProductId := none,
    milDtc := dtc, milPartName := none, absPartName := none,
    srsPartName := none, maintenancePartsCount := none,
    predictedPartsCount := none }

/-- C2 counterexample: with tied states first encountered in the order
`ZZ`, `AA`, the rs2 top-states table lists `AA` before `ZZ` (groupby sorts
its keys alphabetically before the count sort), so tied rows do not appear
in first-encountered input order as the claim states. -/
theorem spec_C2_counterexample :
    (Rs2Dr.summarize (Rs2Dr.load_data
        [Rs2Dr.mkRow (some "ZZ") none none none,
         Rs2Dr.mkRow (some "AA") none none none])).topStates =
      [("AA", 1), ("ZZ", 1)]
    ∧ Dash.dedupFirst (Rs2Dr.state_values (Rs2Dr.load_data
        [Rs2Dr.mkRow (some "ZZ") none none none,
         Rs2Dr.mkRow (some "AA") none none none])) = ["ZZ", "AA"]
    ∧ (Rs2Dr.summarize (Rs2Dr.load_data
        [Rs2Dr.mkRow (some "ZZ") none none none,
         Rs2Dr.mkRow (some "AA") none none none])).topStates ≠
      [("ZZ", 1), ("AA", 1)] := by
  refine ⟨by decide, by decide, by decide⟩

/-- C2 (amended): every ranked top-N table has at most N rows (N = 5 for
the tool table, 10 for the others) and is sorted descending by count.  The
`value_counts`-based tables (top vehicles, top scan tools, top MIL DTC)
break ties by first-encountered input order: tied rows of the table occur
in the order of the underlying counter, whose keys are in first-encounter
order.  The top-states tables of both scripts instead order tied states
alphabetically (ascending state code), because `groupby` sorts its keys
before the descending count sort. -/
theorem spec_C2_topN_tables
    (drRows : List Rs2Dr.Row) (scRows : List ScanRecords.Row) :
    ((Rs2Dr.summarize (Rs2Dr.load_data drRows)).topVehicles.length ≤ 10
      ∧ (Rs2Dr.summarize (Rs2Dr.load_data drRows)).topVehicles.Pairwise
          (fun a b => b.2 ≤ a.2)
      ∧ (∀ a b : String × Nat,
          List.Sublist [a, b]
            (Rs2Dr.summarize (Rs2Dr.load_data drRows)).topVehicles →
          a.2 = b.2 →
          List.Sublist [a, b]
            (Dash.countsOf (Rs2Dr.vehicles (Rs2Dr.load_data drRows))))
      ∧ (Dash.countsOf (Rs2Dr.vehicles (Rs2Dr.load_data drRows))).map Prod.fst =
          Dash.dedupFirst (Rs2Dr.vehicles (Rs2Dr.load_data drRows)))
    ∧ ((Rs2Dr.summarize (Rs2Dr.load_data drRows)).topUsb.length ≤ 5
      ∧ (Rs2Dr.summarize (Rs2Dr.load_data drRows)).topUsb.Pairwise
          (fun a b => b.2 ≤ a.2)
      ∧ (∀ a b : Int × Nat,
          List.Sublist [a, b]
            (Rs2Dr.summarize (Rs2Dr.load_data drRows)).topUsb →
          a.2 = b.2 →
          List.Sublist [a, b]
            (Dash.countsOf ((Rs2Dr.load_data drRows).filterMap (·.usbProductId))))
      ∧ (Dash.countsOf
            ((Rs2Dr.load_data drRows).filterMap (·.usbProductId))).map Prod.fst =
          Dash.dedupFirst ((Rs2Dr.load_data drRows).filterMap (·.usbProductId)))
    ∧ ((Rs2Dr.summarize (Rs2Dr.load_data drRows)).milDtc.length ≤ 10
      ∧ (Rs2Dr.summarize (Rs2Dr.load_data drRows)).milDtc.Pairwise
          (fun a b => b.2.1 ≤ a.2.1)
      ∧ (∀ a b : String × Nat × List (String × Nat),
          List.Sublist [a, b]
            (Rs2Dr.summarize (Rs2Dr.load_data drRows)).milDtc →
          a.2.1 = b.2.1 →
          List.Sublist [(a.1, a.2.1), (b.1, b.2.1)]
            (Dash.countsOf (Rs2Dr.dtc_values (Rs2Dr.load_data drRows))))
      ∧ (Dash.countsOf (Rs2Dr.dtc_values (Rs2Dr.load_data drRows))).map Prod.fst =
          Dash.dedupFirst (Rs2Dr.dtc_values (Rs2Dr.load_data drRows)))
    ∧ ((Rs2Dr.summarize (Rs2Dr.load_data drRows)).topStates.length ≤ 10
      ∧ (Rs2Dr.summarize (Rs2Dr.load_data drRows)).topStates.Pairwise
          (fun a b => b.2 ≤ a.2)
      ∧ (∀ a b : String × Nat,
          List.Sublist [a, b]
            (Rs2Dr.summarize (Rs2Dr.load_data drRows)).topStates →
          a.2 = b.2 → Dash.strLe a.1 b.1 = true ∧ a.1 ≠ b.1))
    ∧ ((ScanRecords.top_states (ScanRecords.load_data scRows)).length ≤ 10
      ∧ (ScanRecords.top_states (ScanRecords.load_data scRows)).Pairwise
          (fun a b => b.total ≤ a.total)
      ∧ (∀ a b : ScanRecords.StateRow,
          List.Sublist [a, b]
            (ScanRecords.top_states (ScanRecords.load_data scRows)) →
          a.total = b.total →
          Dash.strLe a.state b.state = true ∧ a.state ≠ b.state)) := by
  refine ⟨⟨?_, ?_, ?_, ?_⟩, ⟨?_, ?_, ?_, ?_⟩, ⟨?_, ?_, ?_, ?_⟩, ⟨?_, ?_, ?_⟩,
    ⟨?_, ?_, ?_⟩⟩
  · exact List.length_take_le 10 _
  · exact Dash.take_sortDescBy_sorted Prod.snd _ 10
  · intro a b h htie
    exact Dash.valueCounts_take_ties h htie
  · exact Dash.keys_countsOf_eq_dedupFirst _
  · exact List.length_take_le 5 _
  · exact Dash.take_sortDescBy_sorted Prod.snd _ 5
  · intro a b h htie
    exact Dash.valueCounts_take_ties h htie
  · exact Dash.keys_countsOf_eq_dedupFirst _
  · show ((Rs2Dr.mil_dtc_counts (Rs2Dr.load_data drRows)).map _).length ≤ 10
    rw [List.length_map]
    exact List.length_take_le 10 _
  · apply List.pairwise_map.mpr
    exact Dash.take_sortDescBy_sorted Prod.snd _ 10
  · intro a b h htie
    exact Rs2Dr.mil_dtc_tie h htie
  · exact Dash.keys_countsOf_eq_dedupFirst _
  · exact List.length_take_le 10 _
  · exact Dash.take_sortDescBy_sorted Prod.snd _ 10
  · intro a b h htie
    exact Rs2Dr.top_states_tie_lt h htie
  · exact List.length_take_le 10 _
  · exact Dash.take_sortDescBy_sorted (fun r : ScanRecords.StateRow => r.total) _ 10
  · intro a b h htie
    exact ScanRecords.scan_top_states_tie_lt h htie

/-- Witness for C2 (amended) at concrete inputs: two tied MIL DTC rows stay
in first-encounter order inside the counter, and two tied states come out
in ascending state-code order. -/
theorem spec_C2_witness :
    List.Sublist [(("P1" : String), 1), (("P2" : String), 1)]
      (Dash.countsOf (Rs2Dr.dtc_values (Rs2Dr.load_data
        [Rs2Dr.mkDtcRow (some "P1"), Rs2Dr.mkDtcRow (some "P2")])))
    ∧ (Dash.strLe "AA" "ZZ" = true ∧ ("AA" : String) ≠ "ZZ") := by
  have h1 := spec_C2_topN_tables
    [Rs2Dr.mkDtcRow (some "P1"), Rs2Dr.mkDtcRow (some "P2")] []
  have h2 := spec_C2_topN_tables
    [Rs2Dr.mkRow (some "ZZ") none none none,
     Rs2Dr.mkRow (some "AA") none none none] []
  constructor
  · exact h1.2.2.1.2.2.1 ("P1", 1, []) ("P2", 1, []) (by decide) rfl
  · exact h2.2.2.2.1.2.2 ("AA", 1) ("ZZ", 1) (by decide) rfl
